import Mathlib

/-!
Verification development for the PTNexus reconciliation and traffic-accounting
engine (`server/core/services.py`, class `DataTracker`).

Shallow embedding conventions:
* SQL tables are lists of records; primary keys `(hash, downloader_id)` are
  modelled by lists together with explicit no-duplicate-key hypotheses where a
  proof needs them.
* Byte counters (`cumulative_uploaded`, …) are `Nat` (lifetime byte totals).
* `progress` is stored as an `Int` counting tenths of a percentage point:
  the source stores `round(progress * 100, 1)`, a one-decimal percentage, so
  the float comparison `abs(cur - db) > 0.1` becomes `|cur - db| > 1` on these
  integers.
* `format_state` (defined in the repo's `utils` package, outside the analysed
  core) is an arbitrary function parameter `fs : String -> String`; every
  theorem is universally quantified over it.
* Python `dict` objects keyed by torrent hash are modelled as ordered
  association lists (insertion order preserved); `dict` lookups are `find?`.
* SQL `NULL` site/group/details values behave exactly like `''` in the three
  upsert merge clauses, so string fields are plain `String` with `""` for the
  empty/NULL case.
-/

namespace PTNexus

/-! ## Traffic accountant (`_fetch_and_buffer_stats`, `_flush_traffic_buffer_to_db`) -/

/-- One per-tick measurement for one downloader, as assembled into
`data_point` by `_fetch_and_buffer_stats`. -/
structure TrafficPoint where
  downloader_id : String
  total_ul : Nat
  total_dl : Nat
  ul_speed : Nat
  dl_speed : Nat
deriving Repr, DecidableEq

/-- The filter applied both before buffering (`_fetch_and_buffer_stats`) and
again at the start of `_flush_traffic_buffer_to_db`: keep a point only when
`total_ul > 0 or total_dl > 0`. -/
def keep_nonzero_point (p : TrafficPoint) : Bool :=
  decide (p.total_ul > 0) || decide (p.total_dl > 0)

/-- The anomaly test of `_flush_traffic_buffer_to_db` relative to the last
persisted record `(last_ul, last_dl)` of the same downloader: the sample is
rejected when a positive counter decreased or a previously positive counter
reads exactly zero. -/
def traffic_sample_valid (last : Nat × Nat) (p : TrafficPoint) : Bool :=
  !((decide (p.total_ul > 0) && decide (p.total_ul < last.1))
    || (decide (p.total_dl > 0) && decide (p.total_dl < last.2))
    || (decide (p.total_ul = 0) && decide (last.1 > 0))
    || (decide (p.total_dl = 0) && decide (last.2 > 0)))

/-- `last_records[client] = (ul, dl)` update performed after a sample is
accepted for insertion. -/
def update_last_records (last : String → Option (Nat × Nat)) (p : TrafficPoint) :
    String → Option (Nat × Nat) :=
  fun c => if c = p.downloader_id then some (p.total_ul, p.total_dl) else last c

/-- The validation loop of `_flush_traffic_buffer_to_db`: walk the buffered
points in order, keep a point when the downloader has no last record or when
`traffic_sample_valid`, and thread the accepted point into `last_records` for
the rest of the batch.  Returns exactly the `params_to_insert` rows. -/
def flush_validate (last : String → Option (Nat × Nat)) :
    List TrafficPoint → List TrafficPoint
  | [] => []
  | p :: rest =>
    match last p.downloader_id with
    | none => p :: flush_validate (update_last_records last p) rest
    | some lr =>
      if traffic_sample_valid lr p then
        p :: flush_validate (update_last_records last p) rest
      else
        flush_validate last rest

/-- `_flush_traffic_buffer_to_db` first drops every point with both cumulative
counters zero (`filtered_buffer`), then validates against `last_records`. -/
def flush_insert_params (last : String → Option (Nat × Nat))
    (pts : List TrafficPoint) : List TrafficPoint :=
  flush_validate last (pts.filter keep_nonzero_point)

/-- The buffering step of `_fetch_and_buffer_stats`: only points with a
positive cumulative counter are appended to `data_points`. -/
def fetch_buffer_points (raw : List TrafficPoint) : List TrafficPoint :=
  raw.filter keep_nonzero_point

/-- Pairwise non-decreasing check on a sequence of `(ul, dl)` counter pairs. -/
def counters_mono : List (Nat × Nat) → Bool
  | [] => true
  | [_] => true
  | a :: b :: l =>
    decide (a.1 ≤ b.1) && decide (a.2 ≤ b.2) && counters_mono (b :: l)

/-- The `(cumulative_uploaded, cumulative_downloaded)` series a flush persists
for one downloader, in insertion order. -/
def client_counter_seq (c : String) (pts : List TrafficPoint) : List (Nat × Nat) :=
  (pts.filter (fun p => p.downloader_id == c)).map (fun p => (p.total_ul, p.total_dl))

/-! ## Torrent data model -/

/-- One row of the `torrents` table
(`hash, name, save_path, size, progress, state, sites, details, group,
downloader_id, last_seen, seeders`), primary key `(hash, downloader_id)`. -/
structure TorrentRow where
  hash : String
  name : String
  save_path : String
  size : Int
  progress : Int
  state : String
  sites : String
  details : String
  group : String
  downloader_id : String
  last_seen : String
  seeders : Int
deriving Repr, DecidableEq

/-- One row of the `torrent_upload_stats` table, primary key
`(hash, downloader_id)`. -/
structure UploadStat where
  hash : String
  downloader_id : String
  uploaded : Int
deriving Repr, DecidableEq

/-- The persisted store: the `torrents` table and the `torrent_upload_stats`
table. -/
structure DBState where
  torrents : List TorrentRow
  upload_stats : List UploadStat
deriving Repr, DecidableEq

/-- One normalized snapshot torrent (the enriched `current_torrents` entry of
`_compare_torrent_changes`, after `sites`, `details` and `group` have been
computed).  `progress` is in tenths of a percentage point (see module
comment); `state` is the backend-native string before `format_state`. -/
structure SnapTorrent where
  hash : String
  name : String
  save_path : String
  size : Int
  progress : Int
  state : String
  sites : String
  details : String
  group : String
  uploaded : Int
  seeders : Int
deriving Repr, DecidableEq

/-- No two rows of the `torrents` table share the primary key
`(hash, downloader_id)`. -/
def keys_nodup (rows : List TorrentRow) : Prop :=
  rows.Pairwise (fun a b => ¬(a.hash = b.hash ∧ a.downloader_id = b.downloader_id))

/-- No two rows of `torrent_upload_stats` share `(hash, downloader_id)`. -/
def stat_keys_nodup (rows : List UploadStat) : Prop :=
  rows.Pairwise (fun a b => ¬(a.hash = b.hash ∧ a.downloader_id = b.downloader_id))

/-! ## Identity resolver keys -/

/-- Python `str.lower()` on one character (ASCII case mapping). -/
def py_lower_char (c : Char) : Char :=
  if 'A' ≤ c ∧ c ≤ 'Z' then Char.ofNat (c.toNat + 32) else c

/-- Python `str.lower()`: lower-case every character. -/
def py_lower (s : String) : String :=
  ⟨s.data.map py_lower_char⟩

/-- Whitespace test of Python `str.strip()`. -/
def py_space (c : Char) : Bool :=
  c = ' ' || c = '\t' || c = '\n' || c = '\r'

/-- Python `str.strip()`: drop leading and trailing whitespace. -/
def py_strip (s : String) : String :=
  ⟨((s.data.dropWhile py_space).reverse.dropWhile py_space).reverse⟩

/-- `_normalize_attr_key`: strip name and path, keep the integer size, strip
and lower-case sites and group. -/
def normalize_attr_key (name save_path : String) (size : Int) (sites group : String) :
    String × String × Int × String × String :=
  (py_strip name, py_strip save_path, size, py_lower (py_strip sites),
    py_lower (py_strip group))

/-- Raw (non-normalized) 5-attribute key of `_generate_attribute_key` applied
to a stored row. -/
def generate_attribute_key_row (r : TorrentRow) : String × String × Int × String × String :=
  (r.name, r.save_path, r.size, r.sites, r.group)

/-- Raw 5-attribute key of `_generate_attribute_key` applied to a snapshot
torrent. -/
def generate_attribute_key_snap (t : SnapTorrent) : String × String × Int × String × String :=
  (t.name, t.save_path, t.size, t.sites, t.group)

/-- Normalized key of a stored row. -/
def norm_key_row (r : TorrentRow) : String × String × Int × String × String :=
  normalize_attr_key r.name r.save_path r.size r.sites r.group

/-- Normalized key of a snapshot torrent. -/
def norm_key_snap (t : SnapTorrent) : String × String × Int × String × String :=
  normalize_attr_key t.name t.save_path t.size t.sites t.group

/-- `_build_torrents_attribute_index_from_db`: the whole-store index
normalized key -> list of `(hash, downloader_id, last_seen)`, in table order
(the Python `defaultdict(list)` appends in row order). -/
def build_torrents_attribute_index (s : DBState)
    (k : String × String × Int × String × String) : List (String × String × String) :=
  (s.torrents.filter (fun r => norm_key_row r == k)).map
    (fun r => (r.hash, r.downloader_id, r.last_seen))

/-! ## Reconciler (`_compare_torrent_changes`, `_should_update_torrent`) -/

/-- The rows of one downloader (`_get_downloader_torrents_from_db`). -/
def get_downloader_torrents (s : DBState) (dlid : String) : List TorrentRow :=
  s.torrents.filter (fun r => r.downloader_id == dlid)

/-- `_should_update_torrent`: update when progress moved by more than 0.1 of a
percentage point (strictly more than 1 tenth), or state (after
`format_state`), size, save path or seeders changed. -/
def should_update_torrent (fs : String → String) (t : SnapTorrent) (r : TorrentRow) : Bool :=
  decide ((t.progress - r.progress).natAbs > 1)
    || (fs t.state != r.state)
    || (t.size != r.size)
    || (t.save_path != r.save_path)
    || (t.seeders != r.seeders)

/-- `db_attribute_to_hash`: raw-key -> hash map over one downloader's stored
rows; later rows overwrite earlier ones exactly like the Python dict build. -/
def db_attribute_to_hash (db : List TorrentRow) :
    (String × String × Int × String × String) → Option String :=
  db.foldl
    (fun f r => fun k => if k = generate_attribute_key_row r then some r.hash else f k)
    (fun _ => none)

/-- An entry of `updated_torrents`: the snapshot torrent plus the replacement
bookkeeping keys `old_hash_for_replacement` / `old_rows_for_replacement`. -/
structure UpdEntry where
  snap : SnapTorrent
  old_hash_for_replacement : Option String
  old_rows_for_replacement : List (String × String)
deriving Repr, DecidableEq

/-- One step of the snapshot loop in `_compare_torrent_changes`, accumulating
`(new_torrents, updated_torrents)` in snapshot order. -/
def compare_step (fs : String → String) (db : List TorrentRow) (dlid : String)
    (index : (String × String × Int × String × String) → List (String × String × String))
    (acc : List SnapTorrent × List UpdEntry) (t : SnapTorrent) :
    List SnapTorrent × List UpdEntry :=
  match db.find? (fun r => r.hash == t.hash) with
  | some r =>
    if should_update_torrent fs t r then (acc.1, acc.2 ++ [⟨t, none, []⟩]) else acc
  | none =>
    let oldHash := db_attribute_to_hash db (generate_attribute_key_snap t)
    let oldRows := (index (norm_key_snap t)).filterMap
      (fun e => if e.2.1 != "" && e.2.1 != dlid then some (e.1, e.2.1) else none)
    if oldHash.isSome || !oldRows.isEmpty then
      (acc.1, acc.2 ++ [⟨t, oldHash, oldRows⟩])
    else
      (acc.1 ++ [t], acc.2)

/-- `_compare_torrent_changes`: returns
`(new_torrents, updated_torrents, deleted_hashes)`.  `deleted_hashes` is the
final recomputation `db_hashes - current_hashes - {old_hash_for_replacement}`,
listed in table order. -/
def compare_torrent_changes (fs : String → String) (cur : List SnapTorrent)
    (db : List TorrentRow) (dlid : String)
    (index : (String × String × Int × String × String) → List (String × String × String)) :
    List SnapTorrent × List UpdEntry × List String :=
  let (news, upds) := cur.foldl (compare_step fs db dlid index) ([], [])
  let replaced := upds.filterMap (fun e => e.old_hash_for_replacement)
  let deleted := (db.map (fun r => r.hash)).filter
    (fun h => !(cur.any (fun t => t.hash == h)) && !(replaced.contains h))
  (news, upds, deleted)

/-! ## Deletion policy (`_delete_torrents_batch`) -/

/-- The terminal/inactive canonical states of the deletion policy's
`state NOT IN (...)` query: not-seeding, paused, stopped, errored, waiting,
queued. -/
def terminal_states : List String :=
  ["未做种", "已暂停", "已停止", "错误", "等待", "队列"]

/-- `seeding_names`: the distinct-name query is modelled as the list of names
of every row whose state is outside `terminal_states` (membership is all the
algorithm consumes). -/
def seeding_names (s : DBState) : List String :=
  (s.torrents.filter (fun r => !(terminal_states.contains r.state))).map
    (fun r => r.name)

/-- `_delete_torrents_batch`: fetch the candidate rows of this downloader,
delete a candidate immediately when its state is not `未做种` (not-seeding),
and delete a `未做种` candidate only when no row anywhere in the store with
the same name is in a non-terminal state.  Returns the new state and the
number of deleted rows (`cursor.rowcount`). -/
def delete_torrents_batch (s : DBState) (dlid : String) (deleted : List String) :
    DBState × Nat :=
  if deleted.isEmpty then (s, 0) else
  let to_check := s.torrents.filter
    (fun r => deleted.contains r.hash && r.downloader_id == dlid)
  let sn := seeding_names s
  let hashes_to_delete :=
    (to_check.filter (fun r => r.state != "未做种" || !(sn.contains r.name))).map
      (fun r => r.hash)
  if hashes_to_delete.isEmpty then (s, 0) else
  let remaining := s.torrents.filter
    (fun r => !(hashes_to_delete.contains r.hash && r.downloader_id == dlid))
  ({ s with torrents := remaining }, s.torrents.length - remaining.length)

/-! ## Persistence writer (`_upsert_torrents_batch` and the three dialects) -/

/-- SQL `NULLIF(a, b)`. -/
def sql_nullif (a b : String) : Option String :=
  if a = b then none else some a

/-- SQL `COALESCE(a, b)` on one optional string. -/
def sql_coalesce (a : Option String) (b : String) : String :=
  match a with
  | some v => v
  | none => b

/-- MySQL `ON DUPLICATE KEY UPDATE` clause of `_upsert_torrents_batch`:
every column takes `VALUES(col)` except
`sites = COALESCE(NULLIF(VALUES(sites), ''), sites)`,
`details = IF(VALUES(details) != '', VALUES(details), details)` and
`group = COALESCE(NULLIF(VALUES(group), ''), group)`. -/
def merge_mysql (new old : TorrentRow) : TorrentRow :=
  { hash := new.hash
    name := new.name
    save_path := new.save_path
    size := new.size
    progress := new.progress
    state := new.state
    sites := sql_coalesce (sql_nullif new.sites "") old.sites
    details := if new.details != "" then new.details else old.details
    group := sql_coalesce (sql_nullif new.group "") old.group
    downloader_id := new.downloader_id
    last_seen := new.last_seen
    seeders := new.seeders }

/-- PostgreSQL `ON CONFLICT(hash, downloader_id) DO UPDATE SET` clause:
`sites = COALESCE(NULLIF(excluded.sites, ''), torrents.sites)`,
`details = CASE WHEN excluded.details != '' THEN excluded.details ELSE
torrents.details END`, `group` like `sites`, all other columns
`excluded.col`. -/
def merge_postgresql (new old : TorrentRow) : TorrentRow :=
  { hash := new.hash
    name := new.name
    save_path := new.save_path
    size := new.size
    progress := new.progress
    state := new.state
    sites := sql_coalesce (sql_nullif new.sites "") old.sites
    details := if !(new.details == "") then new.details else old.details
    group := sql_coalesce (sql_nullif new.group "") old.group
    downloader_id := new.downloader_id
    last_seen := new.last_seen
    seeders := new.seeders }

/-- SQLite `ON CONFLICT(hash, downloader_id) DO UPDATE SET` clause, textually
the lower-case `excluded` variant of the PostgreSQL clause. -/
def merge_sqlite (new old : TorrentRow) : TorrentRow :=
  { hash := new.hash
    name := new.name
    save_path := new.save_path
    size := new.size
    progress := new.progress
    state := new.state
    sites := sql_coalesce (sql_nullif new.sites "") old.sites
    details := if !(new.details == "") then new.details else old.details
    group := sql_coalesce (sql_nullif new.group "") old.group
    downloader_id := new.downloader_id
    last_seen := new.last_seen
    seeders := new.seeders }

/-- Insert-or-merge of one parameter row into the `torrents` table under a
dialect's conflict clause: on a `(hash, downloader_id)` conflict the stored
row is replaced by the merge of the incoming row over it, otherwise the row
is appended. -/
def upsert_row (merge : TorrentRow → TorrentRow → TorrentRow)
    (ts : List TorrentRow) (p : TorrentRow) : List TorrentRow :=
  if ts.any (fun r => r.hash == p.hash && r.downloader_id == p.downloader_id) then
    ts.map (fun r =>
      if r.hash == p.hash && r.downloader_id == p.downloader_id then merge p r else r)
  else
    ts ++ [p]

/-- The parameter tuple built for one torrent in `_upsert_torrents_batch`:
progress is the already-scaled integer, state goes through `format_state`,
`last_seen` is the batch timestamp. -/
def snap_to_param (fs : String → String) (dlid now : String) (t : SnapTorrent) : TorrentRow :=
  { hash := t.hash
    name := t.name
    save_path := t.save_path
    size := t.size
    progress := t.progress
    state := fs t.state
    sites := t.sites
    details := t.details
    group := t.group
    downloader_id := dlid
    last_seen := now
    seeders := t.seeders }

/-- `_upsert_torrents_batch`: first delete every `old_rows_for_replacement`
pair and every `(old_hash_for_replacement, downloader_id)` pair from both
`torrents` and `torrent_upload_stats`, then upsert the parameter rows in
order.  Returns the new state and the number of row writes (rows deleted by
the replacement step plus parameter rows executed). -/
def upsert_torrents_batch (fs : String → String) (s : DBState)
    (entries : List UpdEntry) (dlid now : String) : DBState × Nat :=
  if entries.isEmpty then (s, 0) else
  let delPairs := entries.foldl
    (fun acc e =>
      acc ++ e.old_rows_for_replacement ++
        (match e.old_hash_for_replacement with
         | some h => [(h, dlid)]
         | none => []))
    []
  let t1 := s.torrents.filter
    (fun r => !(delPairs.any (fun p => p.1 == r.hash && p.2 == r.downloader_id)))
  let u1 := s.upload_stats.filter
    (fun st => !(delPairs.any (fun p => p.1 == st.hash && p.2 == st.downloader_id)))
  let delCount := (s.torrents.length - t1.length) + (s.upload_stats.length - u1.length)
  let params := entries.map (fun e => snap_to_param fs dlid now e.snap)
  let t2 := params.foldl (upsert_row merge_sqlite) t1
  ({ torrents := t2, upload_stats := u1 }, delCount + params.length)

/-- `_collect_upload_stats`: one stat row per snapshot torrent with
`uploaded > 0`. -/
def collect_upload_stats (cur : List SnapTorrent) (dlid : String) : List UploadStat :=
  cur.filterMap (fun t =>
    if decide (t.uploaded > 0) then some ⟨t.hash, dlid, t.uploaded⟩ else none)

/-- Insert-or-replace of one upload-stat row
(`ON CONFLICT(hash, downloader_id) DO UPDATE SET uploaded = excluded.uploaded`). -/
def upsert_stat (l : List UploadStat) (p : UploadStat) : List UploadStat :=
  if l.any (fun st => st.hash == p.hash && st.downloader_id == p.downloader_id) then
    l.map (fun st =>
      if st.hash == p.hash && st.downloader_id == p.downloader_id then p else st)
  else
    l ++ [p]

/-- `_upsert_upload_stats_batch`: executes one upsert per stat row.  Returns
the new state and the number of executed stat writes. -/
def upsert_upload_stats_batch (s : DBState) (stats : List UploadStat) : DBState × Nat :=
  (stats.foldl (fun st p => { st with upload_stats := upsert_stat st.upload_stats p }) s,
   stats.length)

/-- `_process_torrent_changes`: delete batch, then upserts (new and updated
merged in that order, mirroring `{**new_torrents, **updated_torrents}` on
disjoint key sets), then upload stats for the whole snapshot.  The write count
adds up the row writes of the three phases; one successful call commits them
together. -/
def process_torrent_changes (fs : String → String) (s : DBState) (dlid : String)
    (news : List SnapTorrent) (upds : List UpdEntry) (deleted : List String)
    (cur : List SnapTorrent) (now : String) : DBState × Nat :=
  let d := delete_torrents_batch s dlid deleted
  let all_to_insert := news.map (fun t => (⟨t, none, []⟩ : UpdEntry)) ++ upds
  let u := upsert_torrents_batch fs d.1 all_to_insert dlid now
  let stats := collect_upload_stats cur dlid
  let w := upsert_upload_stats_batch u.1 stats
  (w.1, d.2 + u.2 + w.2)

/-- `_update_downloader_torrents_incremental` after the snapshot has been
fetched: diff the snapshot against this downloader's stored rows and, when
anything changed, run `_process_torrent_changes`.  When nothing changed the
database is not touched at all (zero writes). -/
def update_downloader_torrents_incremental (fs : String → String)
    (index : (String × String × Int × String × String) → List (String × String × String))
    (s : DBState) (dlid : String) (cur : List SnapTorrent) (now : String) : DBState × Nat :=
  let db := get_downloader_torrents s dlid
  let c := compare_torrent_changes fs cur db dlid index
  if c.1.isEmpty && c.2.1.isEmpty && c.2.2.isEmpty then (s, 0)
  else process_torrent_changes fs s dlid c.1 c.2.1 c.2.2 cur now

/-- One reconciliation pass of a single downloader, with the whole-store
attribute index built from the state it sees (`update_torrents_in_db` builds
it before processing). -/
def run_pass (fs : String → String) (s : DBState) (dlid : String)
    (cur : List SnapTorrent) (now : String) : DBState × Nat :=
  update_downloader_torrents_incremental fs (build_torrents_attribute_index s) s dlid cur now

/-- The hashes a pass feeds into the torrents upsert (`all_to_insert`):
membership here is what "written to the torrents table" means for a snapshot
torrent. -/
def pass_upsert_hashes (fs : String → String) (s : DBState) (dlid : String)
    (cur : List SnapTorrent) : List String :=
  let c := compare_torrent_changes fs cur (get_downloader_torrents s dlid) dlid
    (build_torrents_attribute_index s)
  c.1.map (fun t => t.hash) ++ c.2.1.map (fun e => e.snap.hash)

/-! ## Tick loop over downloaders (`update_torrents_in_db`) -/

/-- The per-tick work item of one enabled downloader.  `fail = true` models
either a connector error (the snapshot fetch raised, the incremental update
returns `0, 0, 0` without touching the store) or a persistence error (the
transaction of `_process_torrent_changes` raised and was rolled back, leaving
the store unchanged); in both cases `update_torrents_in_db` logs and
continues with the next downloader. -/
structure DownloaderWork where
  id : String
  cur : List SnapTorrent
  fail : Bool
deriving Repr, DecidableEq

/-- `update_torrents_in_db`: build the whole-store attribute index once, then
process each enabled downloader in order; a failing downloader leaves the
store exactly as it was (connector error or rolled-back transaction) and the
loop continues. -/
def update_torrents_in_db (fs : String → String) (s : DBState)
    (ws : List DownloaderWork) (now : String) : DBState :=
  let index := build_torrents_attribute_index s
  ws.foldl
    (fun st w =>
      if w.fail then st
      else (update_downloader_torrents_incremental fs index st w.id w.cur now).1)
    s

/-- The state a pass leaves mirrors the snapshot for this downloader: every
snapshot hash is stored under the downloader, no stored row of the downloader
differs in a tracked field, and the downloader has no stored row outside the
snapshot. -/
def mirrored (fs : String → String) (s : DBState) (dlid : String)
    (cur : List SnapTorrent) : Prop :=
  (∀ t ∈ cur, ∃ r ∈ s.torrents, r.downloader_id = dlid ∧ r.hash = t.hash) ∧
  (∀ t ∈ cur, ∀ r ∈ s.torrents, r.downloader_id = dlid → r.hash = t.hash →
    should_update_torrent fs t r = false) ∧
  (∀ r ∈ s.torrents, r.downloader_id = dlid → cur.any (fun t => t.hash == r.hash) = true)

/-! ## Deduplicator (`_deduplicate_based_on_active`) -/

/-- Lexicographic code-point comparison of character lists, the order Python
uses for `str < str`. -/
def char_list_lt : List Char → List Char → Bool
  | [], [] => false
  | [], _ :: _ => true
  | _ :: _, [] => false
  | a :: as, b :: bs =>
    if a.toNat < b.toNat then true
    else if a.toNat = b.toNat then char_list_lt as bs
    else false

/-- Python `str.__lt__`: lexicographic by code point. -/
def py_str_lt (a b : String) : Bool :=
  char_list_lt a.data b.data

/-- Lexicographic comparison of the Python sort key
`(str(last_seen), str(downloader_id), str(hash))`. -/
def dedup_key_lt (a b : TorrentRow) : Bool :=
  py_str_lt a.last_seen b.last_seen
    || (a.last_seen == b.last_seen
        && (py_str_lt a.downloader_id b.downloader_id
            || (a.downloader_id == b.downloader_id && py_str_lt a.hash b.hash)))

/-- `_choose_keep_downloader_id_for_dedup`: restrict to records whose hash is
in the active set when any exist, then take the Python `max` by
`(last_seen, downloader_id, hash)` (the first maximal record on ties, exactly
the fold below) and return its `downloader_id`. -/
def choose_keep_downloader_id_for_dedup (records : List TorrentRow)
    (active : List String) : String :=
  let active_records := records.filter (fun r => active.contains r.hash)
  let candidates := if active_records.isEmpty then records else active_records
  match candidates with
  | [] => ""
  | c :: cs => (cs.foldl (fun best r => if dedup_key_lt best r then r else best) c).downloader_id

/-- Append a row to its group in the insertion-ordered group list, exactly
like `groups[attr_key].append(row)` on a Python dict. -/
def insert_group (acc : List ((String × String × Int × String × String) × List TorrentRow))
    (r : TorrentRow) : List ((String × String × Int × String × String) × List TorrentRow) :=
  if acc.any (fun e => e.1 == norm_key_row r) then
    acc.map (fun e => if e.1 == norm_key_row r then (e.1, e.2 ++ [r]) else e)
  else
    acc ++ [(norm_key_row r, [r])]

/-- The grouping pass of `_deduplicate_based_on_active`: all stored rows
bucketed by normalized 5-attribute key, in table order. -/
def build_groups (rows : List TorrentRow) :
    List ((String × String × Int × String × String) × List TorrentRow) :=
  rows.foldl insert_group []

/-- `_deduplicate_based_on_active`: for every group whose records span at
least two distinct downloaders, keep the chosen downloader's records and
collect every other record's `(hash, downloader_id)` into `to_delete`; then
delete those pairs from both tables. -/
def deduplicate_based_on_active (s : DBState) (active : List String) : DBState :=
  let groups := build_groups s.torrents
  let to_delete := groups.foldl
    (fun acc e =>
      let records := e.2
      if (records.map (fun r => r.downloader_id)).eraseDups.length < 2 then acc
      else
        let keep := choose_keep_downloader_id_for_dedup records active
        acc ++ records.filterMap
          (fun r => if r.downloader_id != keep then some (r.hash, r.downloader_id) else none))
    []
  if to_delete.isEmpty then s else
  { torrents := s.torrents.filter
      (fun r => !(to_delete.any (fun p => p.1 == r.hash && p.2 == r.downloader_id)))
    upload_stats := s.upload_stats.filter
      (fun st => !(to_delete.any (fun p => p.1 == st.hash && p.2 == st.downloader_id))) }

/-- The group of a row in the dedup pass, in table order. -/
def dedup_group_of (s : DBState) (r : TorrentRow) : List TorrentRow :=
  s.torrents.filter (fun r2 => norm_key_row r2 == norm_key_row r)

/-! ## Startup rebuilder (`_startup_rebuild_aggregated_groups_once`) -/

/-- The aggregation key of the startup rebuild: `(name, size)` only. -/
def ns_key (r : TorrentRow) : String × Int :=
  (r.name, r.size)

/-- A `(name, size)` group is active when some stored row of the group has an
active hash (`active_groups`). -/
def rebuild_group_active (s : DBState) (active : List String) (k : String × Int) : Bool :=
  s.torrents.any (fun r => ns_key r == k && active.contains r.hash)

/-- A `(name, size)` group is rebuilt when it is active and some stored row of
the group has a non-active hash or a non-enabled downloader
(`group_has_stale`). -/
def rebuild_group_stale (s : DBState) (active enabled : List String) (k : String × Int) : Bool :=
  s.torrents.any (fun r =>
    ns_key r == k && (!(active.contains r.hash) || !(enabled.contains r.downloader_id)))

/-- `rebuild_groups` membership test for one key. -/
def rebuild_group (s : DBState) (active enabled : List String) (k : String × Int) : Bool :=
  rebuild_group_active s active k && rebuild_group_stale s active enabled k

/-- A stored row survives the rebuild's delete-then-reinsert exactly when it is
both active-hash and enabled-downloader (`keep_pairs`). -/
def rebuild_keep_row (active enabled : List String) (r : TorrentRow) : Bool :=
  active.contains r.hash && enabled.contains r.downloader_id

/-- `_startup_rebuild_aggregated_groups_once`: when there are enabled
downloaders, active hashes and at least one rebuild group, delete every row of
every rebuild group (from both tables) and reinsert exactly the kept subset,
carrying the kept rows' upload stats. -/
def startup_rebuild_aggregated_groups_once (s : DBState)
    (active enabled : List String) : DBState :=
  if enabled.isEmpty then s else
  if active.isEmpty then s else
  if !(s.torrents.any (fun r => rebuild_group s active enabled (ns_key r))) then s else
  let in_rebuild := fun (r : TorrentRow) => rebuild_group s active enabled (ns_key r)
  let delete_pairs := (s.torrents.filter in_rebuild).map (fun r => (r.hash, r.downloader_id))
  let keep_rows := s.torrents.filter (fun r => in_rebuild r && rebuild_keep_row active enabled r)
  let keep_pairs := keep_rows.map (fun r => (r.hash, r.downloader_id))
  let keep_stats := s.upload_stats.filter
    (fun st => keep_pairs.any (fun p => p.1 == st.hash && p.2 == st.downloader_id))
  { torrents :=
      s.torrents.filter
        (fun r => !(delete_pairs.any (fun p => p.1 == r.hash && p.2 == r.downloader_id)))
      ++ keep_rows
    upload_stats :=
      s.upload_stats.filter
        (fun st => !(delete_pairs.any (fun p => p.1 == st.hash && p.2 == st.downloader_id)))
      ++ keep_stats }

/-! ## Concrete test fixtures used by the claim theorems -/

/-- Traffic point of downloader `"X"` with the given cumulative counters. -/
def exT (ul dl : Nat) : TrafficPoint := ⟨"X", ul, dl, 0, 0⟩

/-- Deletion candidate in the paused state. -/
def exC2_paused : TorrentRow := ⟨"h1", "A", "/p", 1, 0, "已暂停", "", "", "", "X", "t0", 0⟩

/-- Same-named row elsewhere in a non-terminal (seeding) state. -/
def exC2_seeding : TorrentRow := ⟨"h2", "A", "/q", 2, 0, "做种", "", "", "", "Y", "t0", 0⟩

/-- Store with a paused candidate and a same-named seeder. -/
def exC2_state : DBState := ⟨[exC2_paused, exC2_seeding], []⟩

/-- Not-seeding candidate with no same-named active row. -/
def exC2w_row : TorrentRow := ⟨"g", "B", "/p", 1, 0, "未做种", "", "", "", "X", "t0", 0⟩

/-- Store holding only `exC2w_row`. -/
def exC2w_state : DBState := ⟨[exC2w_row], []⟩

/-- Not-seeding row that disappears from its client's snapshot. -/
def exC3_row : TorrentRow := ⟨"g", "A", "/p", 1, 0, "未做种", "", "", "", "X", "t0", 0⟩

/-- Same-named row of another client in state seeding. -/
def exC3_other : TorrentRow := ⟨"k", "A", "/q", 2, 0, "做种", "", "", "", "Y", "t0", 0⟩

/-- Store where the vanished not-seeding row is the only record of its name. -/
def exC3_lonely : DBState := ⟨[exC3_row], []⟩

/-- Store where another client also seeds the same name. -/
def exC3_withSeeder : DBState := ⟨[exC3_row, exC3_other], []⟩

/-- Stored row whose normalized group key matches the new snapshot torrent but
whose raw `sites` value differs in case. -/
def exC4_old : TorrentRow := ⟨"g", "N", "/p", 1, 0, "未做种", "SS", "", "", "X", "t0", 0⟩

/-- Same-named active row of another client (different group key). -/
def exC4_other : TorrentRow := ⟨"k", "N", "/q", 2, 0, "做种", "", "", "", "Y", "t0", 0⟩

/-- Store for the C4 counterexample, with a traffic-stat row for the old hash. -/
def exC4_state : DBState := ⟨[exC4_old, exC4_other], [⟨"g", "X", 7⟩]⟩

/-- New snapshot torrent: same normalized group key as `exC4_old`, new hash. -/
def exC4_snap : SnapTorrent := ⟨"h", "N", "/p", 1, 1000, "up", "ss", "", "", 0, 0⟩

/-- Stored row sharing its raw attribute key with `exC4w_snapA`. -/
def exC4w_old : TorrentRow := ⟨"g2", "N2", "/p2", 3, 0, "做种", "S2", "", "", "X", "t0", 0⟩

/-- Snapshot torrent replacing `exC4w_old` under the same client. -/
def exC4w_snapA : SnapTorrent := ⟨"h2", "N2", "/p2", 3, 200, "up", "S2", "", "", 4, 1⟩

/-- Store for the same-client replacement witness. -/
def exC4w_stateA : DBState := ⟨[exC4w_old], [⟨"g2", "X", 9⟩]⟩

/-- Stored row of another client sharing the normalized key with `exC4w_snapB`. -/
def exC4w_other : TorrentRow := ⟨"g3", "N3", "/p3", 4, 0, "做种", "s3", "", "", "Y", "t0", 0⟩

/-- Snapshot torrent migrating the content to client `"X"`. -/
def exC4w_snapB : SnapTorrent := ⟨"h3", "N3", "/p3", 4, 100, "up", "S3", "", "", 0, 0⟩

/-- Store for the cross-client replacement witness. -/
def exC4w_stateB : DBState := ⟨[exC4w_other], [⟨"g3", "Y", 2⟩]⟩

/-- Not-seeding row that will be retained as a deletion candidate every tick. -/
def exC5_retained : TorrentRow := ⟨"g", "A", "/p", 1, 0, "未做种", "", "", "", "X", "t0", 0⟩

/-- Same-named seeding row of another client that keeps `exC5_retained` alive. -/
def exC5_seeder : TorrentRow := ⟨"k", "A", "/q", 2, 0, "做种", "", "", "", "Y", "t0", 0⟩

/-- Snapshot torrent with positive per-torrent upload. -/
def exC5_snap : SnapTorrent := ⟨"h", "B", "/r", 3, 500, "up", "", "", "", 5, 2⟩

/-- Store for the C5 counterexample. -/
def exC5_state : DBState := ⟨[exC5_retained, exC5_seeder], []⟩

/-- Snapshot torrent already mirrored by the store. -/
def exC5w_snap : SnapTorrent := ⟨"h", "B", "/r", 3, 500, "up", "", "", "", 5, 2⟩

/-- Stored row mirroring `exC5w_snap` under client `"X"`. -/
def exC5w_row : TorrentRow := ⟨"h", "B", "/r", 3, 500, "up", "", "", "", "X", "t0", 2⟩

/-- Mirrored store for the C5 witness. -/
def exC5w_state : DBState := ⟨[exC5w_row], []⟩

/-- Persisted row whose `sites` was resolved earlier. -/
def exC6_old : TorrentRow := ⟨"h", "nm", "/p", 1, 100, "st", "PrivateSiteA", "du", "gu", "X", "t0", 3⟩

/-- Incoming upsert row with empty `sites`, `details` and `group`. -/
def exC6_new : TorrentRow := ⟨"h", "nm2", "/p2", 2, 200, "st2", "", "", "", "X", "t1", 4⟩

/-- Duplicate-group row of client `"X"`, latest `last_seen`. -/
def exC7_a1 : TorrentRow := ⟨"h1", "M", "/m", 9, 0, "做种", "s", "", "grp", "X", "2024-01-02", 0⟩

/-- Second row of client `"X"` in the same group. -/
def exC7_a2 : TorrentRow := ⟨"h2", "M", "/m", 9, 0, "做种", "s", "", "grp", "X", "2024-01-01", 0⟩

/-- Row of client `"Y"` in the same group. -/
def exC7_b1 : TorrentRow := ⟨"h3", "M", "/m", 9, 0, "做种", "s", "", "grp", "Y", "2024-01-01", 0⟩

/-- Store for the C7 counterexample. -/
def exC7_state : DBState := ⟨[exC7_a1, exC7_a2, exC7_b1], [⟨"h3", "Y", 4⟩]⟩

/-- Group row of client `"X"` for the C7 witness. -/
def exC7w_a : TorrentRow := ⟨"h1", "M", "/m", 9, 0, "做种", "s", "", "g", "X", "2024-01-02", 0⟩

/-- Group row of client `"Y"` for the C7 witness. -/
def exC7w_b : TorrentRow := ⟨"h2", "M", "/m", 9, 0, "做种", "s", "", "g", "Y", "2024-01-01", 0⟩

/-- Store for the C7 witness. -/
def exC7w_state : DBState := ⟨[exC7w_a, exC7w_b], [⟨"h2", "Y", 4⟩]⟩

/-- Active, enabled row; save path `/p1`. -/
def exC8_r1 : TorrentRow := ⟨"h1", "N", "/p1", 5, 0, "做种", "", "", "", "X", "t0", 0⟩

/-- Stale row sharing only `(name, size)` with `exC8_r1`; save path `/p2`. -/
def exC8_r2 : TorrentRow := ⟨"h2", "N", "/p2", 5, 0, "做种", "", "", "", "X", "t0", 0⟩

/-- Store for the C8 counterexample and witness. -/
def exC8_state : DBState := ⟨[exC8_r1, exC8_r2], [⟨"h2", "X", 3⟩]⟩

/-- A downloader work item whose processing fails this tick. -/
def exC9_work : DownloaderWork := ⟨"X", [], true⟩

/-! ## Traffic accountant lemmas -/

theorem traffic_valid_le (lr : Nat × Nat) (p : TrafficPoint)
    (h : traffic_sample_valid lr p = true) :
    lr.1 ≤ p.total_ul ∧ lr.2 ≤ p.total_dl := by
  simp [traffic_sample_valid] at h
  omega

theorem client_counter_seq_cons (c : String) (p : TrafficPoint) (l : List TrafficPoint) :
    client_counter_seq c (p :: l) =
      if p.downloader_id = c then
        (p.total_ul, p.total_dl) :: client_counter_seq c l
      else
        client_counter_seq c l := by
  simp only [client_counter_seq, List.filter_cons, beq_iff_eq]
  split <;> simp_all

theorem flush_validate_chain (pts : List TrafficPoint) :
    ∀ (last : String → Option (Nat × Nat)) (c : String),
      counters_mono ((last c).toList ++
        client_counter_seq c (flush_validate last pts)) = true := by
  induction pts with
  | nil =>
    intro last c
    cases h : last c <;> simp [flush_validate, client_counter_seq, counters_mono, h]
  | cons p rest ih =>
    intro last c
    have hupd : ∀ q : TrafficPoint,
        (update_last_records last q) c =
          if c = q.downloader_id then some (q.total_ul, q.total_dl) else last c := by
      intro q; rfl
    cases hl : last p.downloader_id with
    | none =>
      have hout : flush_validate last (p :: rest) =
          p :: flush_validate (update_last_records last p) rest := by
        simp [flush_validate, hl]
      rw [hout, client_counter_seq_cons]
      by_cases hc : p.downloader_id = c
      · subst hc
        rw [if_pos rfl]
        have := ih (update_last_records last p) p.downloader_id
        rw [hupd p, if_pos rfl] at this
        rw [hl]
        simpa using this
      · rw [if_neg hc]
        have := ih (update_last_records last p) c
        rw [hupd p, if_neg (fun h => hc h.symm)] at this
        exact this
    | some lr =>
      by_cases hv : traffic_sample_valid lr p = true
      · have hout : flush_validate last (p :: rest) =
            p :: flush_validate (update_last_records last p) rest := by
          simp [flush_validate, hl, hv]
        rw [hout, client_counter_seq_cons]
        by_cases hc : p.downloader_id = c
        · subst hc
          rw [if_pos rfl, hl]
          have hle := traffic_valid_le lr p hv
          have := ih (update_last_records last p) p.downloader_id
          rw [hupd p, if_pos rfl] at this
          simp only [Option.toList, List.cons_append, List.nil_append] at this ⊢
          cases hseq : client_counter_seq p.downloader_id
              (flush_validate (update_last_records last p) rest) with
          | nil => simp [counters_mono, hle.1, hle.2]
          | cons a l =>
            rw [hseq] at this
            simp only [counters_mono, Bool.and_eq_true, decide_eq_true_eq] at this ⊢
            exact ⟨⟨hle.1, hle.2⟩, this⟩
        · rw [if_neg hc]
          have := ih (update_last_records last p) c
          rw [hupd p, if_neg (fun h => hc h.symm)] at this
          exact this
      · have hout : flush_validate last (p :: rest) = flush_validate last rest := by
          simp [flush_validate, hl, hv]
        rw [hout]
        exact ih last c

theorem flush_validate_all (f : TrafficPoint → Bool) :
    ∀ (last : String → Option (Nat × Nat)) (pts : List TrafficPoint),
      pts.all f = true → (flush_validate last pts).all f = true := by
  intro last pts
  induction pts generalizing last with
  | nil => intro _; rfl
  | cons p rest ih =>
    intro h
    rw [List.all_cons, Bool.and_eq_true] at h
    cases hl : last p.downloader_id with
    | none =>
      have hout : flush_validate last (p :: rest) =
          p :: flush_validate (update_last_records last p) rest := by
        simp [flush_validate, hl]
      rw [hout, List.all_cons, Bool.and_eq_true]
      exact ⟨h.1, ih _ h.2⟩
    | some lr =>
      by_cases hv : traffic_sample_valid lr p = true
      · have hout : flush_validate last (p :: rest) =
            p :: flush_validate (update_last_records last p) rest := by
          simp [flush_validate, hl, hv]
        rw [hout, List.all_cons, Bool.and_eq_true]
        exact ⟨h.1, ih _ h.2⟩
      · have hout : flush_validate last (p :: rest) = flush_validate last rest := by
          simp [flush_validate, hl, hv]
        rw [hout]
        exact ih _ h.2

theorem filter_all_self (f : TrafficPoint → Bool) (l : List TrafficPoint) :
    (l.filter f).all f = true := by
  rw [List.all_eq_true]
  intro a ha
  exact (List.mem_filter.mp ha).2

/-! ## Claim theorems -/

/-- C1 (confirmed).  A traffic sample is persisted by
`_flush_traffic_buffer_to_db` only if neither cumulative counter decreases
while positive and neither drops from positive to exactly zero, relative to
the last persisted sample of the same client; hence, for every starting
`last_records` table, every buffered batch and every client, the persisted
`(cumulative_uploaded, cumulative_downloaded)` series — the last persisted
record followed by the freshly inserted rows — is non-decreasing in both
components.  In particular a sample sequence with cumulative uploads
`[100, 250, 400]` is persisted in full, a fourth sample of `150` is rejected,
and the persisted maximum stays `400`. -/
theorem claim_C1_persisted_counters_monotonic :
    (∀ (last : String → Option (Nat × Nat)) (pts : List TrafficPoint) (c : String),
      counters_mono ((last c).toList ++
        client_counter_seq c (flush_insert_params last pts)) = true)
    ∧ flush_insert_params (fun _ => none)
        [exT 100 1, exT 250 2, exT 400 3, exT 150 4] =
        [exT 100 1, exT 250 2, exT 400 3]
    ∧ ((flush_insert_params (fun _ => none)
        [exT 100 1, exT 250 2, exT 400 3, exT 150 4]).map
          (fun p => p.total_ul)).foldr max 0 = 400 := by
  refine ⟨fun last pts c => ?_, by decide, by decide⟩
  exact flush_validate_chain (pts.filter keep_nonzero_point) last c

/-- C10 (confirmed, implicit).  Every persisted traffic sample has
`cumulative_uploaded > 0` or `cumulative_downloaded > 0`: the both-zero
filter runs when buffering (`_fetch_and_buffer_stats`) and again at the start
of the flush, so a tick reporting both counters as exactly zero is dropped
even when it would be the very first sample for that client — a case the
validation rule alone (last conjunct) would accept. -/
theorem claim_C10_zero_sample_never_persisted :
    (∀ (last : String → Option (Nat × Nat)) (pts : List TrafficPoint),
      (flush_insert_params last pts).all keep_nonzero_point = true)
    ∧ (∀ raw : List TrafficPoint,
        (fetch_buffer_points raw).all keep_nonzero_point = true)
    ∧ flush_insert_params (fun _ => none) [exT 0 0] = []
    ∧ flush_validate (fun _ => none) [exT 0 0] = [exT 0 0] := by
  refine ⟨fun last pts => ?_, fun raw => filter_all_self _ raw, by decide, by decide⟩
  exact flush_validate_all keep_nonzero_point last (pts.filter keep_nonzero_point)
    (filter_all_self _ pts)

theorem isEmpty_false_of_mem {α : Type} {a : α} {l : List α} (h : a ∈ l) :
    l.isEmpty = false := by
  cases l with
  | nil => simp at h
  | cons b t => rfl

theorem contains_true_iff {α : Type} [BEq α] [LawfulBEq α] {l : List α} {a : α} :
    l.contains a = true ↔ a ∈ l := List.elem_iff

theorem contains_false_of_not_mem {α : Type} [BEq α] [LawfulBEq α]
    {l : List α} {a : α} (h : a ∉ l) : l.contains a = false :=
  Bool.eq_false_iff.mpr (fun hc => h (contains_true_iff.mp hc))

theorem keys_nodup_eq_of_same_key {l : List TorrentRow} (hnd : keys_nodup l)
    {a b : TorrentRow} (ha : a ∈ l) (hb : b ∈ l)
    (hh : a.hash = b.hash) (hd : a.downloader_id = b.downloader_id) : a = b := by
  by_cases hab : a = b
  · exact hab
  · have hsymm : Symmetric
        (fun x y : TorrentRow => ¬(x.hash = y.hash ∧ x.downloader_id = y.downloader_id)) :=
      fun x y h hk => h ⟨hk.1.symm, hk.2.symm⟩
    exact absurd ⟨hh, hd⟩ (hnd.forall hsymm ha hb hab)

/-- C6 (confirmed).  On upsert of an existing torrent row, `sites`,
`releaseGroup` and `detailsURL` keep their stored value whenever the incoming
value is empty and are overwritten only by a non-empty incoming value, while
all other columns are unconditionally overwritten; the MySQL, PostgreSQL and
SQLite conflict clauses implement the same merge.  An upsert carrying
`sites = ""` onto a row persisted with `sites = "PrivateSiteA"` leaves
`"PrivateSiteA"` in place. -/
theorem claim_C6_merge_on_empty_semantics :
    (∀ n o : TorrentRow,
      merge_mysql n o = merge_postgresql n o ∧ merge_postgresql n o = merge_sqlite n o)
    ∧ (∀ n o : TorrentRow,
        (merge_mysql n o).sites = (if n.sites = "" then o.sites else n.sites)
        ∧ (merge_mysql n o).group = (if n.group = "" then o.group else n.group)
        ∧ (merge_mysql n o).details = (if n.details = "" then o.details else n.details)
        ∧ (merge_mysql n o).name = n.name
        ∧ (merge_mysql n o).save_path = n.save_path
        ∧ (merge_mysql n o).size = n.size
        ∧ (merge_mysql n o).progress = n.progress
        ∧ (merge_mysql n o).state = n.state
        ∧ (merge_mysql n o).downloader_id = n.downloader_id
        ∧ (merge_mysql n o).last_seen = n.last_seen
        ∧ (merge_mysql n o).seeders = n.seeders)
    ∧ upsert_row merge_sqlite [exC6_old] exC6_new =
        [⟨"h", "nm2", "/p2", 2, 200, "st2", "PrivateSiteA", "du", "gu", "X", "t1", 4⟩] := by
  refine ⟨fun n o => ⟨rfl, rfl⟩, fun n o => ?_, by decide⟩
  by_cases hs : n.sites = "" <;> by_cases hg : n.group = "" <;>
    by_cases hd : n.details = "" <;>
      simp [merge_mysql, sql_nullif, sql_coalesce, hs, hg, hd]

theorem foldl_skip_fail (g : DBState → DownloaderWork → DBState) :
    ∀ (ws : List DownloaderWork) (st : DBState),
      ws.foldl (fun st w => if w.fail then st else g st w) st
        = (ws.filter (fun w => !w.fail)).foldl
            (fun st w => if w.fail then st else g st w) st := by
  intro ws
  induction ws with
  | nil => intro st; rfl
  | cons w ws ih =>
    intro st
    by_cases h : w.fail <;> simp [List.filter_cons, List.foldl_cons, h, ih]

theorem foldl_all_fail (g : DBState → DownloaderWork → DBState) :
    ∀ (ws : List DownloaderWork) (st : DBState), (∀ w ∈ ws, w.fail = true) →
      ws.foldl (fun st w => if w.fail then st else g st w) st = st := by
  intro ws
  induction ws with
  | nil => intro st _; rfl
  | cons w ws ih =>
    intro st h
    have hw : w.fail = true := h w (List.mem_cons_self w ws)
    simp only [List.foldl_cons, hw, if_pos]
    exact ih st (fun w' hw' => h w' (List.mem_cons_of_mem w hw'))

/-- C9 (confirmed).  A failing downloader — a connector error that aborts the
snapshot fetch or a persistence error whose transaction is rolled back, both
modelled by `fail = true` leaving the store untouched for that client — does
not abort the tick: `update_torrents_in_db` produces exactly the state it
would produce processing only the non-failing downloaders, and a tick in
which every downloader fails leaves the persisted state unchanged. -/
theorem claim_C9_failure_isolation :
    (∀ (fs : String → String) (s : DBState) (ws : List DownloaderWork) (now : String),
      update_torrents_in_db fs s ws now =
        update_torrents_in_db fs s (ws.filter (fun w => !w.fail)) now)
    ∧ (∀ (fs : String → String) (s : DBState) (ws : List DownloaderWork) (now : String),
        (∀ w ∈ ws, w.fail = true) → update_torrents_in_db fs s ws now = s) := by
  constructor
  · intro fs s ws now
    simp only [update_torrents_in_db]
    exact foldl_skip_fail
      (fun st w => (update_downloader_torrents_incremental fs
        (build_torrents_attribute_index s) st w.id w.cur now).1) ws s
  · intro fs s ws now h
    simp only [update_torrents_in_db]
    exact foldl_all_fail
      (fun st w => (update_downloader_torrents_incremental fs
        (build_torrents_attribute_index s) st w.id w.cur now).1) ws s h

/-- Witness for C9: a tick whose sole downloader fails leaves the store
unchanged. -/
theorem claim_C9_failure_isolation_witness :
    update_torrents_in_db (fun x => x) ⟨[], []⟩ [exC9_work] "t" = ⟨[], []⟩ :=
  claim_C9_failure_isolation.2 (fun x => x) ⟨[], []⟩ [exC9_work] "t" (by decide)

/-- C2 is false as stated (counterexample): the deletion candidate
`exC2_paused` is in the terminal state `已暂停` (paused) and another row in
the store shares its name and is in a non-terminal state, so the claim says
it must be retained — but `_delete_torrents_batch` deletes it, because the
name-based protection only applies to the exact state `未做种`. -/
theorem claim_C2_counterexample :
    ((delete_torrents_batch exC2_state "X" ["h1"]).1.torrents.any
        (fun r => r.hash == "h1")) = false
    ∧ "已暂停" ∈ terminal_states
    ∧ (exC2_state.torrents.any
        (fun r => r.name == "A" && !(terminal_states.contains r.state))) = true := by
  exact ⟨by decide, by decide, by decide⟩

/-- C2 amended (proved): a deletion candidate is deleted immediately when its
last known state is anything other than `未做种` (not-seeding) — including
the other terminal states paused/stopped/errored/queued/waiting — and a
`未做种` candidate is retained exactly when some row anywhere in the store
shares its name and is in a non-terminal state. -/
theorem claim_C2_amended_deletion_policy (s : DBState) (dlid : String)
    (del : List String) (r : TorrentRow)
    (hnd : keys_nodup s.torrents) (hr : r ∈ s.torrents)
    (hdel : del.contains r.hash = true) (hdl : r.downloader_id = dlid) :
    r ∈ (delete_torrents_batch s dlid del).1.torrents ↔
      (r.state = "未做种" ∧ r.name ∈ seeding_names s) := by
  have hdelne : del.isEmpty = false := by
    cases del with
    | nil => simp [List.contains] at hdel
    | cons a l => rfl
  have hrmem : r ∈ s.torrents.filter
      (fun x => del.contains x.hash && x.downloader_id == dlid) := by
    rw [List.mem_filter]
    refine ⟨hr, ?_⟩
    rw [hdl]
    simp only [beq_self_eq_true, Bool.and_true]
    exact hdel
  have hbadiff : ∀ h : String,
      h ∈ ((s.torrents.filter
            (fun x => del.contains x.hash && x.downloader_id == dlid)).filter
          (fun x => x.state != "未做种" || !((seeding_names s).contains x.name))).map
        (fun x => x.hash) ↔
      (∃ x ∈ s.torrents, del.contains x.hash = true ∧ x.downloader_id = dlid ∧
        (x.state != "未做种" || !((seeding_names s).contains x.name)) = true ∧
        x.hash = h) := by
    intro h
    simp only [List.mem_map, List.mem_filter, Bool.and_eq_true, beq_iff_eq]
    constructor
    · rintro ⟨x, ⟨⟨hxmem, hxdel, hxdl⟩, hxbad⟩, hxh⟩
      exact ⟨x, hxmem, hxdel, hxdl, hxbad, hxh⟩
    · rintro ⟨x, hxmem, hxdel, hxdl, hxbad, hxh⟩
      exact ⟨x, ⟨⟨hxmem, hxdel, hxdl⟩, hxbad⟩, hxh⟩
  have hkey : ∀ h : String,
      h ∈ ((s.torrents.filter
            (fun x => del.contains x.hash && x.downloader_id == dlid)).filter
          (fun x => x.state != "未做种" || !((seeding_names s).contains x.name))).map
        (fun x => x.hash) →
      h = r.hash →
      (r.state != "未做种" || !((seeding_names s).contains r.name)) = true := by
    intro h hh hhr
    obtain ⟨x, hxmem, _, hxdl, hxbad, hxh⟩ := (hbadiff h).mp hh
    have : x = r :=
      keys_nodup_eq_of_same_key hnd hxmem hr (by rw [hxh, hhr]) (by rw [hxdl, hdl])
    rwa [this] at hxbad
  simp only [delete_torrents_batch, hdelne, Bool.false_eq_true, if_false]
  by_cases hbad : (r.state != "未做种" || !((seeding_names s).contains r.name)) = true
  · have hin : r.hash ∈ ((s.torrents.filter
        (fun x => del.contains x.hash && x.downloader_id == dlid)).filter
      (fun x => x.state != "未做种" || !((seeding_names s).contains x.name))).map
        (fun x => x.hash) := by
      refine (hbadiff r.hash).mpr ⟨r, hr, hdel, hdl, hbad, rfl⟩
    have hne : (((s.torrents.filter
        (fun x => del.contains x.hash && x.downloader_id == dlid)).filter
      (fun x => x.state != "未做种" || !((seeding_names s).contains x.name))).map
        (fun x => x.hash)).isEmpty = false := isEmpty_false_of_mem hin
    simp only [hne, Bool.false_eq_true, if_false]
    constructor
    · intro hmem
      exfalso
      rw [List.mem_filter] at hmem
      have h2 := hmem.2
      simp only [Bool.not_eq_true', Bool.and_eq_false_iff] at h2
      rcases h2 with hc | hc
      · have hct := contains_true_iff.mpr hin
        rw [hc] at hct
        simp at hct
      · rw [hdl] at hc
        simp at hc
    · intro hrs
      exfalso
      simp only [Bool.or_eq_true, bne_iff_ne, ne_eq, Bool.not_eq_true'] at hbad
      rcases hbad with hb | hb
      · exact hb hrs.1
      · have hct := contains_true_iff.mpr hrs.2
        rw [hb] at hct
        simp at hct
  · have hbadf := hbad
    push_neg at hbadf
    have hcond : r.state = "未做种" ∧ r.name ∈ seeding_names s := by
      have hfalse : (r.state != "未做种" || !((seeding_names s).contains r.name)) = false := by
        simpa using hbad
      simp only [Bool.or_eq_false_iff, bne_eq_false_iff_eq, Bool.not_eq_false'] at hfalse
      exact ⟨hfalse.1, contains_true_iff.mp hfalse.2⟩
    by_cases hemp : (((s.torrents.filter
        (fun x => del.contains x.hash && x.downloader_id == dlid)).filter
      (fun x => x.state != "未做种" || !((seeding_names s).contains x.name))).map
        (fun x => x.hash)).isEmpty = true
    · simp only [hemp, if_true]
      exact ⟨fun _ => hcond, fun _ => hr⟩
    · simp only [hemp, Bool.false_eq_true, if_false]
      have hnotin : r.hash ∉ ((s.torrents.filter
          (fun x => del.contains x.hash && x.downloader_id == dlid)).filter
        (fun x => x.state != "未做种" || !((seeding_names s).contains x.name))).map
          (fun x => x.hash) := by
        intro hcon
        exact hbad (hkey r.hash hcon rfl)
      constructor
      · intro _; exact hcond
      · intro _
        rw [List.mem_filter]
        refine ⟨hr, ?_⟩
        simp only [Bool.not_eq_true', Bool.and_eq_false_iff]
        exact Or.inl (contains_false_of_not_mem hnotin)

/-- Witness for the amended C2 at a concrete store: the lone not-seeding
candidate has no same-named active row, and is indeed deleted. -/
theorem claim_C2_amended_deletion_policy_witness :
    exC2w_row ∈ (delete_torrents_batch exC2w_state "X" ["g"]).1.torrents ↔
      (exC2w_row.state = "未做种" ∧ exC2w_row.name ∈ seeding_names exC2w_state) :=
  claim_C2_amended_deletion_policy exC2w_state "X" ["g"] exC2w_row
    (by simp [keys_nodup, exC2w_state]) (by simp [exC2w_state]) (by decide) rfl

/-- C3 is false as stated (counterexample): a `未做种` (not-seeding) row with
no other same-named active row anywhere disappears from its client's
snapshot; the claim says the tick retains it, but the reconciliation pass
deletes it (its name is in no seeding row). -/
theorem claim_C3_counterexample :
    (run_pass (fun x => x) exC3_lonely "X" [] "t1").1.torrents = []
    ∧ (exC3_lonely.torrents.all
        (fun r => !(r.name == "A") || terminal_states.contains r.state)) = true := by
  exact ⟨by decide, by decide⟩

/-- C3 amended (proved): the code's retention test is the inverse of the
claim's — a vanished not-seeding row with no other same-named non-terminal
row is deleted in that tick, while an identical row for which another row
elsewhere is seeding (state `做种`) is retained. -/
theorem claim_C3_amended_retention_inverted :
    (run_pass (fun x => x) exC3_lonely "X" [] "t1").1.torrents = []
    ∧ ((run_pass (fun x => x) exC3_withSeeder "X" [] "t1").1.torrents.any
        (fun r => r.hash == "g")) = true
    ∧ (exC3_withSeeder.torrents.any
        (fun r => r.name == "A" && !(terminal_states.contains r.state)
          && r.hash != "g")) = true := by
  exact ⟨by decide, by decide, by decide⟩

theorem foldl_const {α β : Type} (f : β → α → β) (l : List α) (acc : β)
    (h : ∀ x ∈ l, ∀ b, f b x = b) : l.foldl f acc = acc := by
  induction l generalizing acc with
  | nil => rfl
  | cons x xs ih =>
    rw [List.foldl_cons, h x (List.mem_cons_self x xs)]
    exact ih acc (fun y hy b => h y (List.mem_cons_of_mem x hy) b)

theorem compare_step_skip (fs : String → String) (db : List TorrentRow) (dlid : String)
    (index : (String × String × Int × String × String) → List (String × String × String))
    (t : SnapTorrent)
    (hdb : ∃ r ∈ db, r.hash = t.hash)
    (hnoupd : ∀ r ∈ db, r.hash = t.hash → should_update_torrent fs t r = false) :
    ∀ acc, compare_step fs db dlid index acc t = acc := by
  intro acc
  have hsome : (db.find? (fun r => r.hash == t.hash)).isSome := by
    rw [List.find?_isSome]
    obtain ⟨r, hr, hh⟩ := hdb
    exact ⟨r, hr, by simp [hh]⟩
  cases hfind : db.find? (fun r => r.hash == t.hash) with
  | none => rw [hfind] at hsome; simp at hsome
  | some r0 =>
    have hh : r0.hash = t.hash := by
      have := List.find?_some hfind
      simpa using this
    have hsu : should_update_torrent fs t r0 = false :=
      hnoupd r0 (List.mem_of_find?_eq_some hfind) hh
    simp [compare_step, hfind, hsu]

theorem mirrored_compare_empty (fs : String → String) (s : DBState) (dlid : String)
    (cur : List SnapTorrent)
    (index : (String × String × Int × String × String) → List (String × String × String))
    (h : mirrored fs s dlid cur) :
    compare_torrent_changes fs cur (get_downloader_torrents s dlid) dlid index =
      ([], [], []) := by
  obtain ⟨h1, h2, h3⟩ := h
  have hstep : ∀ t ∈ cur, ∀ acc,
      compare_step fs (get_downloader_torrents s dlid) dlid index acc t = acc := by
    intro t ht acc
    refine compare_step_skip fs _ dlid index t ?_ ?_ acc
    · obtain ⟨r, hr, hrd, hrh⟩ := h1 t ht
      exact ⟨r, List.mem_filter.mpr ⟨hr, by simp [hrd]⟩, hrh⟩
    · intro r hrdb hrh
      have hrmem := List.mem_filter.mp hrdb
      have hrdl : r.downloader_id = dlid := by
        have := hrmem.2
        simpa using this
      exact h2 t ht r hrmem.1 hrdl hrh
  have hfold : cur.foldl (compare_step fs (get_downloader_torrents s dlid) dlid index)
      ([], []) = ([], []) :=
    foldl_const _ cur ([], []) hstep
  have hdel : ((get_downloader_torrents s dlid).map (fun r => r.hash)).filter
      (fun h => !(cur.any (fun t => t.hash == h)) &&
        !((([] : List UpdEntry).filterMap (fun e => e.old_hash_for_replacement)).contains h))
      = [] := by
    rw [List.filter_eq_nil_iff]
    intro a ha
    rw [List.mem_map] at ha
    obtain ⟨r, hrdb, hrh⟩ := ha
    have hrmem := List.mem_filter.mp hrdb
    have hrdl : r.downloader_id = dlid := by
      have := hrmem.2
      simpa using this
    have hany := h3 r hrmem.1 hrdl
    rw [← hrh]
    simp [hany]
  simp only [compare_torrent_changes, hfold]
  simpa using hdel

theorem mirrored_pass_noop (fs : String → String) (s : DBState) (dlid : String)
    (cur : List SnapTorrent) (now : String) (h : mirrored fs s dlid cur) :
    run_pass fs s dlid cur now = (s, 0) := by
  have hcmp := mirrored_compare_empty fs s dlid cur
    (build_torrents_attribute_index s) h
  simp [run_pass, update_downloader_torrents_incremental, hcmp]

theorem compare_step_hash_bound (fs : String → String) (db : List TorrentRow)
    (dlid : String)
    (index : (String × String × Int × String × String) → List (String × String × String))
    (acc : List SnapTorrent × List UpdEntry) (t : SnapTorrent) (hh : String)
    (hne : t.hash ≠ hh)
    (h1 : hh ∉ acc.1.map (fun x => x.hash))
    (h2 : hh ∉ acc.2.map (fun e => e.snap.hash)) :
    hh ∉ (compare_step fs db dlid index acc t).1.map (fun x => x.hash) ∧
    hh ∉ (compare_step fs db dlid index acc t).2.map (fun e => e.snap.hash) := by
  cases hfind : db.find? (fun r => r.hash == t.hash) with
  | some r0 =>
    by_cases hsu : should_update_torrent fs t r0 = true
    · simp only [compare_step, hfind, hsu, if_true]
      refine ⟨h1, ?_⟩
      rw [List.map_append, List.mem_append]
      rintro (hc | hc)
      · exact h2 hc
      · simp at hc
        exact hne hc.symm
    · simp only [compare_step, hfind, Bool.not_eq_true] at hsu ⊢
      rw [hsu]
      simp only [Bool.false_eq_true, if_false]
      exact ⟨h1, h2⟩
  | none =>
    by_cases hrep : ((db_attribute_to_hash db (generate_attribute_key_snap t)).isSome
        || !((index (norm_key_snap t)).filterMap
          (fun e => if e.2.1 != "" && e.2.1 != dlid then some (e.1, e.2.1) else none)).isEmpty)
        = true
    · simp only [compare_step, hfind, hrep, if_true]
      refine ⟨h1, ?_⟩
      rw [List.map_append, List.mem_append]
      rintro (hc | hc)
      · exact h2 hc
      · simp at hc
        exact hne hc.symm
    · simp only [compare_step, hfind, Bool.not_eq_true] at hrep ⊢
      rw [hrep]
      simp only [Bool.false_eq_true, if_false]
      refine ⟨?_, h2⟩
      rw [List.map_append, List.mem_append]
      rintro (hc | hc)
      · exact h1 hc
      · simp at hc
        exact hne hc.symm

theorem fold_hash_not_mem (fs : String → String) (db : List TorrentRow) (dlid : String)
    (index : (String × String × Int × String × String) → List (String × String × String))
    (hh : String) :
    ∀ (l : List SnapTorrent) (acc : List SnapTorrent × List UpdEntry),
      (∀ t ∈ l, t.hash ≠ hh ∨ ∀ a, compare_step fs db dlid index a t = a) →
      hh ∉ acc.1.map (fun x => x.hash) →
      hh ∉ acc.2.map (fun e => e.snap.hash) →
      hh ∉ (l.foldl (compare_step fs db dlid index) acc).1.map (fun x => x.hash) ∧
      hh ∉ (l.foldl (compare_step fs db dlid index) acc).2.map (fun e => e.snap.hash) := by
  intro l
  induction l with
  | nil => intro acc _ h1 h2; exact ⟨h1, h2⟩
  | cons t ts ih =>
    intro acc hl h1 h2
    rw [List.foldl_cons]
    rcases hl t (List.mem_cons_self t ts) with hne | hid
    · obtain ⟨h1', h2'⟩ := compare_step_hash_bound fs db dlid index acc t hh hne h1 h2
      exact ih _ (fun x hx => hl x (List.mem_cons_of_mem t hx)) h1' h2'
    · rw [hid acc]
      exact ih _ (fun x hx => hl x (List.mem_cons_of_mem t hx)) h1 h2

/-- C5 is false as stated (counterexample): starting from a store holding a
retained deletion candidate (a vanished `未做种` row kept alive by a
same-named seeding row of another client), reconciling the same snapshot a
second time immediately after the first pass still performs one write — the
upload-stat upsert batch is re-executed because the surviving deletion
candidate keeps the change set non-empty — so the second pass does not
produce zero writes. -/
theorem claim_C5_counterexample :
    (run_pass (fun x => x)
        ((run_pass (fun x => x) exC5_state "X" [exC5_snap] "t1").1)
        "X" [exC5_snap] "t2").2 = 1 := by decide

/-- C5 amended (proved).  Reconciliation is idempotent at the level of
persisted state: a pass over a store whose rows for the client already mirror
the snapshot (every snapshot hash stored without a tracked-field difference,
no extra rows for the client) changes nothing and performs zero writes; and a
torrent present in both snapshot and persisted state is fed to the torrents
upsert only if one of progress (by more than 0.1 of a percentage point),
state, size, save path or seeders differs.  (When a deletion candidate
survives via the retention rule, the pass is not write-free: it re-executes
the upload-stat upserts, writing values already present — see the
counterexample.) -/
theorem claim_C5_amended_state_idempotence :
    (∀ (fs : String → String) (s : DBState) (dlid : String)
        (cur : List SnapTorrent) (now : String),
      mirrored fs s dlid cur → run_pass fs s dlid cur now = (s, 0))
    ∧ (∀ (fs : String → String) (s : DBState) (dlid : String)
        (cur : List SnapTorrent) (t : SnapTorrent),
      (cur.map (fun x => x.hash)).Nodup → t ∈ cur →
      (∃ r ∈ get_downloader_torrents s dlid, r.hash = t.hash) →
      (∀ r ∈ get_downloader_torrents s dlid, r.hash = t.hash →
        should_update_torrent fs t r = false) →
      t.hash ∉ pass_upsert_hashes fs s dlid cur) := by
  refine ⟨mirrored_pass_noop, ?_⟩
  intro fs s dlid cur t hnd ht hdb hnoupd
  have hcond : ∀ t' ∈ cur, t'.hash ≠ t.hash ∨
      ∀ a, compare_step fs (get_downloader_torrents s dlid) dlid
        (build_torrents_attribute_index s) a t' = a := by
    intro t' ht'
    by_cases heq : t' = t
    · subst heq
      exact Or.inr (compare_step_skip fs _ dlid _ t' hdb hnoupd)
    · left
      intro hhash
      exact heq (List.inj_on_of_nodup_map hnd ht' ht hhash)
  have := fold_hash_not_mem fs (get_downloader_torrents s dlid) dlid
    (build_torrents_attribute_index s) t.hash cur ([], []) hcond (by simp) (by simp)
  intro hmem
  rw [pass_upsert_hashes, List.mem_append] at hmem
  rcases hmem with hc | hc
  · exact this.1 (by simpa using hc)
  · exact this.2 (by simpa using hc)

/-- Witness for the amended C5: on a mirrored store the pass returns the
store unchanged with zero writes, and the mirrored snapshot torrent is not
written to the torrents table. -/
theorem claim_C5_amended_state_idempotence_witness :
    run_pass (fun x => x) exC5w_state "X" [exC5w_snap] "t9" = (exC5w_state, 0)
    ∧ "h" ∉ pass_upsert_hashes (fun x => x) exC5w_state "X" [exC5w_snap] := by
  constructor
  · exact claim_C5_amended_state_idempotence.1 (fun x => x) exC5w_state "X"
      [exC5w_snap] "t9" (by unfold mirrored; decide)
  · exact claim_C5_amended_state_idempotence.2 (fun x => x) exC5w_state "X"
      [exC5w_snap] exC5w_snap (by decide) (by decide) (by decide) (by decide)

theorem dah_append (l : List TorrentRow) (r : TorrentRow) :
    db_attribute_to_hash (l ++ [r]) = fun k =>
      if k = generate_attribute_key_row r then some r.hash
      else db_attribute_to_hash l k := by
  simp only [db_attribute_to_hash, List.foldl_append, List.foldl_cons, List.foldl_nil]

theorem dah_no_match (k : String × String × Int × String × String) :
    ∀ (l : List TorrentRow), (∀ r ∈ l, generate_attribute_key_row r ≠ k) →
      db_attribute_to_hash l k = none := by
  intro l
  induction l using List.reverseRecOn with
  | nil => intro _; rfl
  | append_singleton l r ih =>
    intro h
    rw [dah_append]
    dsimp only
    have hk : ¬(k = generate_attribute_key_row r) :=
      fun he => (h r (by simp)) he.symm
    rw [if_neg hk]
    exact ih (fun x hx => h x (by simp [hx]))

theorem dah_unique_match (k : String × String × Int × String × String)
    (rOld : TorrentRow) :
    ∀ (l : List TorrentRow),
      l.filter (fun r => generate_attribute_key_row r == k) = [rOld] →
      db_attribute_to_hash l k = some rOld.hash := by
  intro l
  induction l using List.reverseRecOn with
  | nil => intro h; simp at h
  | append_singleton l r ih =>
    intro h
    rw [List.filter_append] at h
    rw [dah_append]
    dsimp only
    by_cases hk : generate_attribute_key_row r = k
    · have hfr : List.filter (fun x => generate_attribute_key_row x == k) [r] = [r] := by
        simp [hk]
      rw [hfr] at h
      have hlen := congrArg List.length h
      rw [List.length_append] at hlen
      simp only [List.length_singleton] at hlen
      have hfl : List.filter (fun x => generate_attribute_key_row x == k) l = [] :=
        List.eq_nil_of_length_eq_zero (by omega)
      rw [hfl, List.nil_append] at h
      have hre : r = rOld := by
        have := List.head_eq_of_cons_eq h
        exact this
      rw [if_pos hk.symm, hre]
    · have hfr : List.filter (fun x => generate_attribute_key_row x == k) [r] = [] := by
        simp [hk]
      rw [hfr, List.append_nil] at h
      rw [if_neg (fun he => hk he.symm)]
      exact ih h

theorem delete_batch_torrents_subset (s : DBState) (dlid : String) (del : List String) :
    ∀ r, r ∈ (delete_torrents_batch s dlid del).1.torrents → r ∈ s.torrents := by
  intro r h
  simp only [delete_torrents_batch] at h
  split at h
  · exact h
  · split at h
    · exact h
    · exact (List.mem_filter.mp h).1

theorem delete_batch_stats_eq (s : DBState) (dlid : String) (del : List String) :
    (delete_torrents_batch s dlid del).1.upload_stats = s.upload_stats := by
  simp only [delete_torrents_batch]
  split
  · rfl
  · split
    · rfl
    · rfl

theorem upsert_stat_mem {l : List UploadStat} {p st : UploadStat}
    (h : st ∈ upsert_stat l p) : st ∈ l ∨ st = p := by
  unfold upsert_stat at h
  split at h
  · rw [List.mem_map] at h
    obtain ⟨x, hx, heq⟩ := h
    by_cases hc : (x.hash == p.hash && x.downloader_id == p.downloader_id) = true
    · rw [if_pos hc] at heq
      exact Or.inr heq.symm
    · rw [if_neg hc] at heq
      exact Or.inl (heq ▸ hx)
  · rw [List.mem_append] at h
    rcases h with h | h
    · exact Or.inl h
    · exact Or.inr (by simpa using h)

theorem stats_batch_torrents_eq (stats : List UploadStat) :
    ∀ (s : DBState), (upsert_upload_stats_batch s stats).1.torrents = s.torrents := by
  induction stats with
  | nil => intro s; rfl
  | cons p ps ih =>
    intro s
    simp only [upsert_upload_stats_batch, List.foldl_cons]
    exact ih { s with upload_stats := upsert_stat s.upload_stats p }

theorem stats_batch_stats_mem (stats : List UploadStat) :
    ∀ (s : DBState) (st : UploadStat),
      st ∈ (upsert_upload_stats_batch s stats).1.upload_stats →
      st ∈ s.upload_stats ∨ st ∈ stats := by
  induction stats with
  | nil => intro s st h; exact Or.inl h
  | cons p ps ih =>
    intro s st h
    simp only [upsert_upload_stats_batch, List.foldl_cons] at h
    rcases ih { s with upload_stats := upsert_stat s.upload_stats p } st h with hin | hin
    · rcases upsert_stat_mem hin with h' | h'
      · exact Or.inl h'
      · exact Or.inr (by simp [h'])
    · exact Or.inr (List.mem_cons_of_mem p hin)

theorem collect_single_mem {t : SnapTorrent} {dlid : String} {st : UploadStat}
    (h : st ∈ collect_upload_stats [t] dlid) :
    st.hash = t.hash ∧ st.downloader_id = dlid := by
  simp only [collect_upload_stats, List.mem_filterMap] at h
  obtain ⟨a, ha, hf⟩ := h
  rw [List.mem_singleton] at ha
  subst ha
  by_cases hu : decide (a.uploaded > 0) = true
  · rw [if_pos hu] at hf
    have := Option.some.inj hf
    rw [← this]
    exact ⟨rfl, rfl⟩
  · rw [if_neg hu] at hf
    simp at hf

theorem upsert_row_append_of_no_key (merge : TorrentRow → TorrentRow → TorrentRow)
    (ts : List TorrentRow) (p : TorrentRow)
    (h : ts.any (fun r => r.hash == p.hash && r.downloader_id == p.downloader_id) = false) :
    upsert_row merge ts p = ts ++ [p] := by
  unfold upsert_row
  rw [h]
  simp

theorem process_result (fs : String → String) (s : DBState) (dlid : String)
    (news : List SnapTorrent) (upds : List UpdEntry) (deleted : List String)
    (cur : List SnapTorrent) (now : String) :
    (process_torrent_changes fs s dlid news upds deleted cur now).1 =
      (upsert_upload_stats_batch
        (upsert_torrents_batch fs (delete_torrents_batch s dlid deleted).1
          (news.map (fun t => (⟨t, none, []⟩ : UpdEntry)) ++ upds) dlid now).1
        (collect_upload_stats cur dlid)).1 := rfl

theorem upsert_batch_single_torrents (fs : String → String) (s : DBState)
    (e : UpdEntry) (dlid now : String) :
    (upsert_torrents_batch fs s [e] dlid now).1.torrents =
      upsert_row merge_sqlite
        (s.torrents.filter (fun r =>
          !((e.old_rows_for_replacement ++
             (match e.old_hash_for_replacement with
              | some h => [(h, dlid)]
              | none => [])).any
            (fun p => p.1 == r.hash && p.2 == r.downloader_id))))
        (snap_to_param fs dlid now e.snap) := rfl

theorem upsert_batch_single_stats (fs : String → String) (s : DBState)
    (e : UpdEntry) (dlid now : String) :
    (upsert_torrents_batch fs s [e] dlid now).1.upload_stats =
      s.upload_stats.filter (fun st =>
        !((e.old_rows_for_replacement ++
           (match e.old_hash_for_replacement with
            | some h => [(h, dlid)]
            | none => [])).any
          (fun p => p.1 == st.hash && p.2 == st.downloader_id))) := rfl

theorem index_mem (s : DBState) (k : String × String × Int × String × String)
    (e : String × String × String) :
    e ∈ build_torrents_attribute_index s k ↔
      ∃ r ∈ s.torrents, norm_key_row r = k ∧ e = (r.hash, r.downloader_id, r.last_seen) := by
  simp only [build_torrents_attribute_index, List.mem_map, List.mem_filter, beq_iff_eq]
  constructor
  · rintro ⟨r, ⟨hr, hk⟩, hre⟩
    exact ⟨r, hr, hk, hre.symm⟩
  · rintro ⟨r, hr, hk, hre⟩
    exact ⟨r, ⟨hr, hk⟩, hre.symm⟩

theorem c4_same_client_replacement (fs : String → String) (s : DBState)
    (dlid now : String) (t : SnapTorrent) (rOld : TorrentRow)
    (huniq : (get_downloader_torrents s dlid).filter
        (fun r => generate_attribute_key_row r == generate_attribute_key_snap t) = [rOld])
    (hnohash : ∀ r ∈ s.torrents, r.downloader_id = dlid → r.hash ≠ t.hash) :
    (∀ r ∈ (run_pass fs s dlid [t] now).1.torrents,
        ¬(r.hash = rOld.hash ∧ r.downloader_id = dlid))
    ∧ snap_to_param fs dlid now t ∈ (run_pass fs s dlid [t] now).1.torrents
    ∧ (∀ st ∈ (run_pass fs s dlid [t] now).1.upload_stats,
        ¬(st.hash = rOld.hash ∧ st.downloader_id = dlid))
    ∧ (∀ r ∈ (run_pass fs s dlid [t] now).1.torrents, r.downloader_id = dlid →
        generate_attribute_key_row r = generate_attribute_key_snap t →
        r = snap_to_param fs dlid now t) := by
  have hrOld_sing : rOld ∈ (get_downloader_torrents s dlid).filter
      (fun r => generate_attribute_key_row r == generate_attribute_key_snap t) := by
    rw [huniq]
    exact List.mem_singleton.mpr rfl
  have hrOld_db : rOld ∈ get_downloader_torrents s dlid := (List.mem_filter.mp hrOld_sing).1
  have hrOld_mem : rOld ∈ s.torrents := (List.mem_filter.mp hrOld_db).1
  have hrOld_dl : rOld.downloader_id = dlid := by
    have := (List.mem_filter.mp hrOld_db).2
    simpa using this
  have hrOld_hne : rOld.hash ≠ t.hash := hnohash rOld hrOld_mem hrOld_dl
  have hfind : (get_downloader_torrents s dlid).find? (fun r => r.hash == t.hash) = none := by
    rw [List.find?_eq_none]
    intro x hx
    have hxm := List.mem_filter.mp hx
    have hxdl : x.downloader_id = dlid := by simpa using hxm.2
    simp [hnohash x hxm.1 hxdl]
  have hdah : db_attribute_to_hash (get_downloader_torrents s dlid)
      (generate_attribute_key_snap t) = some rOld.hash :=
    dah_unique_match _ rOld _ huniq
  have hstep : compare_step fs (get_downloader_torrents s dlid) dlid
      (build_torrents_attribute_index s) ([], []) t =
      ([], [⟨t, some rOld.hash,
        ((build_torrents_attribute_index s) (norm_key_snap t)).filterMap
          (fun e => if e.2.1 != "" && e.2.1 != dlid then some (e.1, e.2.1) else none)⟩]) := by
    simp only [compare_step, hfind, hdah]
    simp
  have hcmp : compare_torrent_changes fs [t] (get_downloader_torrents s dlid) dlid
      (build_torrents_attribute_index s) =
      ([], [⟨t, some rOld.hash,
        ((build_torrents_attribute_index s) (norm_key_snap t)).filterMap
          (fun e => if e.2.1 != "" && e.2.1 != dlid then some (e.1, e.2.1) else none)⟩],
        ((get_downloader_torrents s dlid).map (fun r => r.hash)).filter
          (fun h => !([t].any (fun t' => t'.hash == h)) && !([rOld.hash].contains h))) := by
    simp only [compare_torrent_changes, List.foldl_cons, List.foldl_nil, hstep]
    simp
  have hres : (run_pass fs s dlid [t] now).1 =
      (upsert_upload_stats_batch
        (upsert_torrents_batch fs
          (delete_torrents_batch s dlid
            (((get_downloader_torrents s dlid).map (fun r => r.hash)).filter
              (fun h => !([t].any (fun t' => t'.hash == h)) && !([rOld.hash].contains h)))).1
          [⟨t, some rOld.hash,
            ((build_torrents_attribute_index s) (norm_key_snap t)).filterMap
              (fun e => if e.2.1 != "" && e.2.1 != dlid then some (e.1, e.2.1) else none)⟩]
          dlid now).1
        (collect_upload_stats [t] dlid)).1 := by
    simp only [run_pass, update_downloader_torrents_incremental, hcmp]
    norm_num [process_result]
  have htor : (run_pass fs s dlid [t] now).1.torrents =
      upsert_row merge_sqlite
        ((delete_torrents_batch s dlid
            (((get_downloader_torrents s dlid).map (fun r => r.hash)).filter
              (fun h => !([t].any (fun t' => t'.hash == h)) && !([rOld.hash].contains h)))).1.torrents.filter
          (fun r => !((((build_torrents_attribute_index s) (norm_key_snap t)).filterMap
              (fun e => if e.2.1 != "" && e.2.1 != dlid then some (e.1, e.2.1) else none)
              ++ [(rOld.hash, dlid)]).any
            (fun p => p.1 == r.hash && p.2 == r.downloader_id))))
        (snap_to_param fs dlid now t) := by
    rw [hres, stats_batch_torrents_eq]
    rfl
  have hnokey : ((delete_torrents_batch s dlid
        (((get_downloader_torrents s dlid).map (fun r => r.hash)).filter
          (fun h => !([t].any (fun t' => t'.hash == h)) && !([rOld.hash].contains h)))).1.torrents.filter
      (fun r => !((((build_torrents_attribute_index s) (norm_key_snap t)).filterMap
          (fun e => if e.2.1 != "" && e.2.1 != dlid then some (e.1, e.2.1) else none)
          ++ [(rOld.hash, dlid)]).any
        (fun p => p.1 == r.hash && p.2 == r.downloader_id)))).any
      (fun r => r.hash == (snap_to_param fs dlid now t).hash &&
        r.downloader_id == (snap_to_param fs dlid now t).downloader_id) = false := by
    rw [List.any_eq_false]
    intro r hr
    have hrs : r ∈ s.torrents :=
      delete_batch_torrents_subset s dlid _ r (List.mem_filter.mp hr).1
    intro hcond
    simp only [snap_to_param, Bool.and_eq_true, beq_iff_eq] at hcond
    exact hnohash r hrs hcond.2 hcond.1
  have htor2 : (run_pass fs s dlid [t] now).1.torrents =
      ((delete_torrents_batch s dlid
          (((get_downloader_torrents s dlid).map (fun r => r.hash)).filter
            (fun h => !([t].any (fun t' => t'.hash == h)) && !([rOld.hash].contains h)))).1.torrents.filter
        (fun r => !((((build_torrents_attribute_index s) (norm_key_snap t)).filterMap
            (fun e => if e.2.1 != "" && e.2.1 != dlid then some (e.1, e.2.1) else none)
            ++ [(rOld.hash, dlid)]).any
          (fun p => p.1 == r.hash && p.2 == r.downloader_id))))
      ++ [snap_to_param fs dlid now t] := by
    rw [htor, upsert_row_append_of_no_key _ _ _ hnokey]
  have hpair : (rOld.hash, dlid) ∈
      ((build_torrents_attribute_index s) (norm_key_snap t)).filterMap
        (fun e => if e.2.1 != "" && e.2.1 != dlid then some (e.1, e.2.1) else none)
      ++ [(rOld.hash, dlid)] := by
    rw [List.mem_append]
    exact Or.inr (List.mem_singleton.mpr rfl)
  refine ⟨?_, ?_, ?_, ?_⟩
  · intro r hr hcontra
    rw [htor2, List.mem_append] at hr
    rcases hr with hr | hr
    · have hcond := (List.mem_filter.mp hr).2
      rw [Bool.not_eq_true', List.any_eq_false] at hcond
      have := hcond (rOld.hash, dlid) hpair
      simp [hcontra.1, hcontra.2] at this
    · rw [List.mem_singleton] at hr
      rw [hr] at hcontra
      exact hrOld_hne (hcontra.1.symm)
  · rw [htor2, List.mem_append]
    exact Or.inr (List.mem_singleton.mpr rfl)
  · intro st hst hcontra
    rw [hres] at hst
    rcases stats_batch_stats_mem _ _ st hst with hin | hin
    · have hin2 : st ∈ (delete_torrents_batch s dlid
          (((get_downloader_torrents s dlid).map (fun r => r.hash)).filter
            (fun h => !([t].any (fun t' => t'.hash == h)) && !([rOld.hash].contains h)))).1.upload_stats.filter
          (fun st => !((((build_torrents_attribute_index s) (norm_key_snap t)).filterMap
              (fun e => if e.2.1 != "" && e.2.1 != dlid then some (e.1, e.2.1) else none)
              ++ [(rOld.hash, dlid)]).any
            (fun p => p.1 == st.hash && p.2 == st.downloader_id))) := hin
      have hcond := (List.mem_filter.mp hin2).2
      rw [Bool.not_eq_true', List.any_eq_false] at hcond
      have := hcond (rOld.hash, dlid) hpair
      simp [hcontra.1, hcontra.2] at this
    · have := collect_single_mem hin
      rw [hcontra.1] at this
      exact hrOld_hne this.1
  · intro r hr hdl hkey
    rw [htor2, List.mem_append] at hr
    rcases hr with hr | hr
    · exfalso
      have hrs : r ∈ s.torrents :=
        delete_batch_torrents_subset s dlid _ r (List.mem_filter.mp hr).1
      have hrdb : r ∈ (get_downloader_torrents s dlid).filter
          (fun x => generate_attribute_key_row x == generate_attribute_key_snap t) := by
        rw [List.mem_filter]
        exact ⟨List.mem_filter.mpr ⟨hrs, by simp [hdl]⟩, by simp [hkey]⟩
      rw [huniq, List.mem_singleton] at hrdb
      have hcond := (List.mem_filter.mp hr).2
      rw [Bool.not_eq_true', List.any_eq_false] at hcond
      have := hcond (rOld.hash, dlid) hpair
      rw [hrdb] at this
      simp [hrOld_dl] at this
    · exact List.mem_singleton.mp hr

theorem c4_cross_client_replacement (fs : String → String) (s : DBState)
    (dlid now : String) (t : SnapTorrent)
    (hnohash : ∀ r ∈ s.torrents, r.downloader_id = dlid → r.hash ≠ t.hash)
    (hnoraw : ∀ r ∈ get_downloader_torrents s dlid,
        generate_attribute_key_row r ≠ generate_attribute_key_snap t)
    (hcross : ∀ r ∈ s.torrents, norm_key_row r = norm_key_snap t →
        r.downloader_id ≠ dlid ∧ r.downloader_id ≠ "")
    (hex : ∃ r ∈ s.torrents, norm_key_row r = norm_key_snap t) :
    snap_to_param fs dlid now t ∈ (run_pass fs s dlid [t] now).1.torrents
    ∧ (∀ r ∈ (run_pass fs s dlid [t] now).1.torrents,
        norm_key_row r = norm_key_snap t → r = snap_to_param fs dlid now t)
    ∧ (∀ r ∈ s.torrents, norm_key_row r = norm_key_snap t →
        ∀ st ∈ (run_pass fs s dlid [t] now).1.upload_stats,
          ¬(st.hash = r.hash ∧ st.downloader_id = r.downloader_id)) := by
  have hfind : (get_downloader_torrents s dlid).find? (fun r => r.hash == t.hash) = none := by
    rw [List.find?_eq_none]
    intro x hx
    have hxm := List.mem_filter.mp hx
    have hxdl : x.downloader_id = dlid := by simpa using hxm.2
    simp [hnohash x hxm.1 hxdl]
  have hdahn : db_attribute_to_hash (get_downloader_torrents s dlid)
      (generate_attribute_key_snap t) = none :=
    dah_no_match _ _ hnoraw
  have hORmem : ∀ p : String × String,
      p ∈ ((build_torrents_attribute_index s) (norm_key_snap t)).filterMap
        (fun e => if e.2.1 != "" && e.2.1 != dlid then some (e.1, e.2.1) else none) ↔
      ∃ r ∈ s.torrents, norm_key_row r = norm_key_snap t ∧ p = (r.hash, r.downloader_id) := by
    intro p
    rw [List.mem_filterMap]
    constructor
    · rintro ⟨e, he, hf⟩
      rw [index_mem] at he
      obtain ⟨r, hr, hk, rfl⟩ := he
      by_cases hc : (r.downloader_id != "" && r.downloader_id != dlid) = true
      · rw [if_pos hc] at hf
        exact ⟨r, hr, hk, (Option.some.inj hf).symm⟩
      · rw [if_neg hc] at hf
        simp at hf
    · rintro ⟨r, hr, hk, rfl⟩
      refine ⟨(r.hash, r.downloader_id, r.last_seen), ?_, ?_⟩
      · rw [index_mem]
        exact ⟨r, hr, hk, rfl⟩
      · have hc := hcross r hr hk
        have hcb : (r.downloader_id != "" && r.downloader_id != dlid) = true := by
          simp only [Bool.and_eq_true, bne_iff_ne, ne_eq]
          exact ⟨hc.2, hc.1⟩
        rw [if_pos hcb]
  have hORne : (((build_torrents_attribute_index s) (norm_key_snap t)).filterMap
      (fun e => if e.2.1 != "" && e.2.1 != dlid then some (e.1, e.2.1) else none)).isEmpty
      = false := by
    obtain ⟨r, hr, hk⟩ := hex
    exact isEmpty_false_of_mem ((hORmem (r.hash, r.downloader_id)).mpr ⟨r, hr, hk, rfl⟩)
  have hstep : compare_step fs (get_downloader_torrents s dlid) dlid
      (build_torrents_attribute_index s) ([], []) t =
      ([], [⟨t, none,
        ((build_torrents_attribute_index s) (norm_key_snap t)).filterMap
          (fun e => if e.2.1 != "" && e.2.1 != dlid then some (e.1, e.2.1) else none)⟩]) := by
    simp only [compare_step, hfind, hdahn]
    simp only [Option.isSome_none, Bool.false_or, hORne, Bool.not_false, if_true]
    simp
  have hcmp : compare_torrent_changes fs [t] (get_downloader_torrents s dlid) dlid
      (build_torrents_attribute_index s) =
      ([], [⟨t, none,
        ((build_torrents_attribute_index s) (norm_key_snap t)).filterMap
          (fun e => if e.2.1 != "" && e.2.1 != dlid then some (e.1, e.2.1) else none)⟩],
        ((get_downloader_torrents s dlid).map (fun r => r.hash)).filter
          (fun h => !([t].any (fun t' => t'.hash == h)))) := by
    simp only [compare_torrent_changes, List.foldl_cons, List.foldl_nil, hstep]
    simp
  have hres : (run_pass fs s dlid [t] now).1 =
      (upsert_upload_stats_batch
        (upsert_torrents_batch fs
          (delete_torrents_batch s dlid
            (((get_downloader_torrents s dlid).map (fun r => r.hash)).filter
              (fun h => !([t].any (fun t' => t'.hash == h))))).1
          [⟨t, none,
            ((build_torrents_attribute_index s) (norm_key_snap t)).filterMap
              (fun e => if e.2.1 != "" && e.2.1 != dlid then some (e.1, e.2.1) else none)⟩]
          dlid now).1
        (collect_upload_stats [t] dlid)).1 := by
    simp only [run_pass, update_downloader_torrents_incremental, hcmp]
    norm_num [process_result]
  have htor : (run_pass fs s dlid [t] now).1.torrents =
      upsert_row merge_sqlite
        ((delete_torrents_batch s dlid
            (((get_downloader_torrents s dlid).map (fun r => r.hash)).filter
              (fun h => !([t].any (fun t' => t'.hash == h))))).1.torrents.filter
          (fun r => !((((build_torrents_attribute_index s) (norm_key_snap t)).filterMap
              (fun e => if e.2.1 != "" && e.2.1 != dlid then some (e.1, e.2.1) else none)
              ++ ([] : List (String × String))).any
            (fun p => p.1 == r.hash && p.2 == r.downloader_id))))
        (snap_to_param fs dlid now t) := by
    rw [hres, stats_batch_torrents_eq]
    rfl
  have hnokey : ((delete_torrents_batch s dlid
        (((get_downloader_torrents s dlid).map (fun r => r.hash)).filter
          (fun h => !([t].any (fun t' => t'.hash == h))))).1.torrents.filter
      (fun r => !((((build_torrents_attribute_index s) (norm_key_snap t)).filterMap
          (fun e => if e.2.1 != "" && e.2.1 != dlid then some (e.1, e.2.1) else none)
          ++ ([] : List (String × String))).any
        (fun p => p.1 == r.hash && p.2 == r.downloader_id)))).any
      (fun r => r.hash == (snap_to_param fs dlid now t).hash &&
        r.downloader_id == (snap_to_param fs dlid now t).downloader_id) = false := by
    rw [List.any_eq_false]
    intro r hr
    have hrs : r ∈ s.torrents :=
      delete_batch_torrents_subset s dlid _ r (List.mem_filter.mp hr).1
    intro hcond
    simp only [snap_to_param, Bool.and_eq_true, beq_iff_eq] at hcond
    exact hnohash r hrs hcond.2 hcond.1
  have htor2 : (run_pass fs s dlid [t] now).1.torrents =
      ((delete_torrents_batch s dlid
          (((get_downloader_torrents s dlid).map (fun r => r.hash)).filter
            (fun h => !([t].any (fun t' => t'.hash == h))))).1.torrents.filter
        (fun r => !((((build_torrents_attribute_index s) (norm_key_snap t)).filterMap
            (fun e => if e.2.1 != "" && e.2.1 != dlid then some (e.1, e.2.1) else none)
            ++ ([] : List (String × String))).any
          (fun p => p.1 == r.hash && p.2 == r.downloader_id))))
      ++ [snap_to_param fs dlid now t] := by
    rw [htor, upsert_row_append_of_no_key _ _ _ hnokey]
  refine ⟨?_, ?_, ?_⟩
  · rw [htor2, List.mem_append]
    exact Or.inr (List.mem_singleton.mpr rfl)
  · intro r hr hnorm
    rw [htor2, List.mem_append] at hr
    rcases hr with hr | hr
    · exfalso
      have hrs : r ∈ s.torrents :=
        delete_batch_torrents_subset s dlid _ r (List.mem_filter.mp hr).1
      have hpairr : (r.hash, r.downloader_id) ∈
          ((build_torrents_attribute_index s) (norm_key_snap t)).filterMap
            (fun e => if e.2.1 != "" && e.2.1 != dlid then some (e.1, e.2.1) else none) :=
        (hORmem (r.hash, r.downloader_id)).mpr ⟨r, hrs, hnorm, rfl⟩
      have hcond := (List.mem_filter.mp hr).2
      rw [Bool.not_eq_true', List.any_eq_false] at hcond
      have := hcond (r.hash, r.downloader_id)
        (by rw [List.mem_append]; exact Or.inl hpairr)
      simp at this
    · exact List.mem_singleton.mp hr
  · intro r hr hnorm st hst hcontra
    have hpairr : (r.hash, r.downloader_id) ∈
        ((build_torrents_attribute_index s) (norm_key_snap t)).filterMap
          (fun e => if e.2.1 != "" && e.2.1 != dlid then some (e.1, e.2.1) else none) :=
      (hORmem (r.hash, r.downloader_id)).mpr ⟨r, hr, hnorm, rfl⟩
    rw [hres] at hst
    rcases stats_batch_stats_mem _ _ st hst with hin | hin
    · have hin2 : st ∈ (delete_torrents_batch s dlid
          (((get_downloader_torrents s dlid).map (fun r => r.hash)).filter
            (fun h => !([t].any (fun t' => t'.hash == h))))).1.upload_stats.filter
          (fun st => !((((build_torrents_attribute_index s) (norm_key_snap t)).filterMap
              (fun e => if e.2.1 != "" && e.2.1 != dlid then some (e.1, e.2.1) else none)
              ++ ([] : List (String × String))).any
            (fun p => p.1 == st.hash && p.2 == st.downloader_id))) := hin
      have hcond := (List.mem_filter.mp hin2).2
      rw [Bool.not_eq_true', List.any_eq_false] at hcond
      have := hcond (r.hash, r.downloader_id)
        (by rw [List.mem_append]; exact Or.inl hpairr)
      simp [hcontra.1, hcontra.2] at this
    · have := collect_single_mem hin
      have hdl : r.downloader_id = dlid := by
        rw [← hcontra.2, this.2]
      exact (hcross r hr hnorm).1 hdl

/-- C4 is false as stated (counterexample): the snapshot torrent
`exC4_snap` and the stored row `exC4_old` of the same client share the
normalized group key (their `sites` values differ only in case), so the claim
says the old row and its traffic-stat row are deleted and exactly one row
remains for the client and group key — but the same-client replacement
matches on the raw attribute key, so no replacement fires: after the pass the
client holds two rows with the same normalized group key (the old hash was
retained by the deletion policy) and the old traffic-stat row survives. -/
theorem claim_C4_counterexample :
    ((run_pass (fun x => x) exC4_state "X" [exC4_snap] "t1").1.torrents.filter
        (fun r => r.downloader_id == "X" &&
          (norm_key_row r == norm_key_snap exC4_snap))).length = 2
    ∧ (run_pass (fun x => x) exC4_state "X" [exC4_snap] "t1").1.upload_stats =
        [⟨"g", "X", 7⟩]
    ∧ ((run_pass (fun x => x) exC4_state "X" [exC4_snap] "t1").1.torrents.any
        (fun r => r.hash == "g" && r.downloader_id == "X")) = true := by
  exact ⟨by decide, by decide, by decide⟩

/-- C4 amended (proved).  For a snapshot hash absent from the client's
persisted rows: if exactly one persisted row under the same client has the
same raw (exact, unnormalized) attribute key `(name, savePath, size, site,
releaseGroup)`, that row and its traffic-stat row are deleted, the new row is
inserted, and the new row is the only row of that client with that raw key;
if instead no same-client row shares the raw key but rows under other
clients share the normalized key, those rows and their traffic-stat rows are
deleted and the new row is inserted as the sole survivor of the normalized
group key. -/
theorem claim_C4_amended_replacement :
    (∀ (fs : String → String) (s : DBState) (dlid now : String)
        (t : SnapTorrent) (rOld : TorrentRow),
      (get_downloader_torrents s dlid).filter
          (fun r => generate_attribute_key_row r == generate_attribute_key_snap t)
          = [rOld] →
      (∀ r ∈ s.torrents, r.downloader_id = dlid → r.hash ≠ t.hash) →
      (∀ r ∈ (run_pass fs s dlid [t] now).1.torrents,
          ¬(r.hash = rOld.hash ∧ r.downloader_id = dlid))
        ∧ snap_to_param fs dlid now t ∈ (run_pass fs s dlid [t] now).1.torrents
        ∧ (∀ st ∈ (run_pass fs s dlid [t] now).1.upload_stats,
            ¬(st.hash = rOld.hash ∧ st.downloader_id = dlid))
        ∧ (∀ r ∈ (run_pass fs s dlid [t] now).1.torrents, r.downloader_id = dlid →
            generate_attribute_key_row r = generate_attribute_key_snap t →
            r = snap_to_param fs dlid now t))
    ∧ (∀ (fs : String → String) (s : DBState) (dlid now : String) (t : SnapTorrent),
      (∀ r ∈ s.torrents, r.downloader_id = dlid → r.hash ≠ t.hash) →
      (∀ r ∈ get_downloader_torrents s dlid,
        generate_attribute_key_row r ≠ generate_attribute_key_snap t) →
      (∀ r ∈ s.torrents, norm_key_row r = norm_key_snap t →
        r.downloader_id ≠ dlid ∧ r.downloader_id ≠ "") →
      (∃ r ∈ s.torrents, norm_key_row r = norm_key_snap t) →
      snap_to_param fs dlid now t ∈ (run_pass fs s dlid [t] now).1.torrents
        ∧ (∀ r ∈ (run_pass fs s dlid [t] now).1.torrents,
            norm_key_row r = norm_key_snap t → r = snap_to_param fs dlid now t)
        ∧ (∀ r ∈ s.torrents, norm_key_row r = norm_key_snap t →
            ∀ st ∈ (run_pass fs s dlid [t] now).1.upload_stats,
              ¬(st.hash = r.hash ∧ st.downloader_id = r.downloader_id))) :=
  ⟨fun fs s dlid now t rOld huniq hnohash =>
    c4_same_client_replacement fs s dlid now t rOld huniq hnohash,
   fun fs s dlid now t hnohash hnoraw hcross hex =>
    c4_cross_client_replacement fs s dlid now t hnohash hnoraw hcross hex⟩

/-- Witness for the amended C4: a concrete same-client replacement deletes
the old row's traffic stat and inserts the new row, and a concrete
cross-client replacement inserts the new row. -/
theorem claim_C4_amended_replacement_witness :
    snap_to_param (fun x => x) "X" "t1" exC4w_snapA ∈
        (run_pass (fun x => x) exC4w_stateA "X" [exC4w_snapA] "t1").1.torrents
    ∧ (∀ st ∈ (run_pass (fun x => x) exC4w_stateA "X" [exC4w_snapA] "t1").1.upload_stats,
        ¬(st.hash = "g2" ∧ st.downloader_id = "X"))
    ∧ snap_to_param (fun x => x) "X" "t1" exC4w_snapB ∈
        (run_pass (fun x => x) exC4w_stateB "X" [exC4w_snapB] "t1").1.torrents := by
  refine ⟨?_, ?_, ?_⟩
  · exact (claim_C4_amended_replacement.1 (fun x => x) exC4w_stateA "X" "t1"
      exC4w_snapA exC4w_old (by decide) (by decide)).2.1
  · exact (claim_C4_amended_replacement.1 (fun x => x) exC4w_stateA "X" "t1"
      exC4w_snapA exC4w_old (by decide) (by decide)).2.2.1
  · exact (claim_C4_amended_replacement.2 (fun x => x) exC4w_stateB "X" "t1"
      exC4w_snapB (by decide) (by decide) (by decide) (by decide)).1

theorem dedup_fold_mem (active : List String) :
    ∀ (gs : List ((String × String × Int × String × String) × List TorrentRow))
      (acc : List (String × String)) (p : String × String),
      p ∈ gs.foldl
        (fun acc e =>
          let records := e.2
          if (records.map (fun r => r.downloader_id)).eraseDups.length < 2 then acc
          else
            let keep := choose_keep_downloader_id_for_dedup records active
            acc ++ records.filterMap
              (fun r => if r.downloader_id != keep then
                some (r.hash, r.downloader_id) else none))
        acc ↔
      p ∈ acc ∨ ∃ e ∈ gs,
        ¬((e.2.map (fun r => r.downloader_id)).eraseDups.length < 2) ∧
        p ∈ e.2.filterMap
          (fun r => if r.downloader_id !=
              choose_keep_downloader_id_for_dedup e.2 active
            then some (r.hash, r.downloader_id) else none) := by
  intro gs
  induction gs with
  | nil => intro acc p; simp
  | cons g gs ih =>
    intro acc p
    rw [List.foldl_cons]
    dsimp only
    by_cases hsmall : (g.2.map (fun r => r.downloader_id)).eraseDups.length < 2
    · rw [if_pos hsmall, ih acc p]
      constructor
      · rintro (h | h)
        · exact Or.inl h
        · obtain ⟨e, he, hb, hp⟩ := h
          exact Or.inr ⟨e, List.mem_cons_of_mem g he, hb, hp⟩
      · rintro (h | h)
        · exact Or.inl h
        · obtain ⟨e, he, hb, hp⟩ := h
          rcases List.mem_cons.mp he with rfl | he'
          · exact absurd hsmall hb
          · exact Or.inr ⟨e, he', hb, hp⟩
    · rw [if_neg hsmall, ih _ p, List.mem_append]
      constructor
      · rintro ((h | h) | h)
        · exact Or.inl h
        · exact Or.inr ⟨g, List.mem_cons_self g gs, hsmall, h⟩
        · obtain ⟨e, he, hb, hp⟩ := h
          exact Or.inr ⟨e, List.mem_cons_of_mem g he, hb, hp⟩
      · rintro (h | h)
        · exact Or.inl (Or.inl h)
        · obtain ⟨e, he, hb, hp⟩ := h
          rcases List.mem_cons.mp he with rfl | he'
          · exact Or.inl (Or.inr hp)
          · exact Or.inr ⟨e, he', hb, hp⟩

theorem build_groups_aux :
    ∀ (rows : List TorrentRow)
      (acc : List ((String × String × Int × String × String) × List TorrentRow))
      (pre : List TorrentRow),
      (∀ e ∈ acc, e.2 = pre.filter (fun r => norm_key_row r == e.1)) →
      (∀ k, (acc.any (fun e => e.1 == k) = true) ↔ ∃ r ∈ pre, norm_key_row r = k) →
      (∀ e ∈ rows.foldl insert_group acc,
        e.2 = (pre ++ rows).filter (fun r => norm_key_row r == e.1)) ∧
      (∀ k, ((rows.foldl insert_group acc).any (fun e => e.1 == k) = true) ↔
        ∃ r ∈ pre ++ rows, norm_key_row r = k) := by
  intro rows
  induction rows with
  | nil =>
    intro acc pre hent hcov
    rw [List.foldl_nil]
    refine ⟨?_, ?_⟩
    · intro e he
      rw [List.append_nil]
      exact hent e he
    · intro k
      rw [List.append_nil]
      exact hcov k
  | cons r rows ih =>
    intro acc pre hent hcov
    rw [List.foldl_cons]
    have hassoc : pre ++ r :: rows = (pre ++ [r]) ++ rows := by
      rw [List.append_assoc, List.singleton_append]
    rw [hassoc]
    refine ih (insert_group acc r) (pre ++ [r]) ?_ ?_
    · intro e' he'
      unfold insert_group at he'
      split at he'
      · rw [List.mem_map] at he'
        obtain ⟨e, he, hupd⟩ := he'
        by_cases hk : (e.1 == norm_key_row r) = true
        · rw [if_pos hk] at hupd
          have hkeq : norm_key_row r = e.1 := (beq_iff_eq.mp hk).symm
          rw [← hupd, List.filter_append]
          have hfr : [r].filter (fun x => norm_key_row x == e.1) = [r] := by
            rw [List.filter_singleton]
            simp [hkeq]
          rw [hfr, hent e he]
        · rw [if_neg hk] at hupd
          rw [← hupd, List.filter_append]
          have hk' : (norm_key_row r == e.1) = false := by
            rw [Bool.eq_false_iff]
            intro hc
            exact hk (by rw [beq_iff_eq] at hc ⊢; exact hc.symm)
          have hfr : [r].filter (fun x => norm_key_row x == e.1) = [] := by
            rw [List.filter_singleton, hk']
            rfl
          rw [hfr, List.append_nil]
          exact hent e he
      · rename_i hany
        rw [List.mem_append] at he'
        rcases he' with he' | he'
        · have hnone : (e'.1 == norm_key_row r) = false := by
            rw [Bool.eq_false_iff]
            intro hc
            exact hany (List.any_eq_true.mpr ⟨e', he', hc⟩)
          rw [List.filter_append]
          have hk' : (norm_key_row r == e'.1) = false := by
            rw [Bool.eq_false_iff]
            intro hc
            have hsym : (e'.1 == norm_key_row r) = true := by
              rw [beq_iff_eq] at hc ⊢
              exact hc.symm
            rw [hnone] at hsym
            exact Bool.false_ne_true hsym
          have hfr : [r].filter (fun x => norm_key_row x == e'.1) = [] := by
            rw [List.filter_singleton, hk']
            rfl
          rw [hfr, List.append_nil]
          exact hent e' he'
        · rw [List.mem_singleton] at he'
          subst he'
          have hpre : pre.filter (fun x => norm_key_row x == norm_key_row r) = [] := by
            rw [List.filter_eq_nil_iff]
            intro a ha hc
            have hex2 : ∃ x ∈ pre, norm_key_row x = norm_key_row r :=
              ⟨a, ha, beq_iff_eq.mp hc⟩
            exact hany ((hcov (norm_key_row r)).mpr hex2)
          rw [List.filter_append, hpre, List.nil_append]
          simp
    · intro k
      unfold insert_group
      split
      · rename_i hany
        have hsame : ((acc.map (fun e =>
            if e.1 == norm_key_row r then (e.1, e.2 ++ [r]) else e)).any
              (fun e => e.1 == k)) = acc.any (fun e => e.1 == k) := by
          rw [Bool.eq_iff_iff, List.any_eq_true, List.any_eq_true]
          constructor
          · rintro ⟨x, hx, hk2⟩
            rw [List.mem_map] at hx
            obtain ⟨e, he, hupd⟩ := hx
            refine ⟨e, he, ?_⟩
            by_cases hc : (e.1 == norm_key_row r) = true
            · rw [if_pos hc] at hupd
              rw [← hupd] at hk2
              exact hk2
            · rw [if_neg hc] at hupd
              rw [← hupd] at hk2
              exact hk2
          · rintro ⟨e, he, hk2⟩
            by_cases hc : (e.1 == norm_key_row r) = true
            · exact ⟨(e.1, e.2 ++ [r]),
                List.mem_map.mpr ⟨e, he, by rw [if_pos hc]⟩, hk2⟩
            · exact ⟨e, List.mem_map.mpr ⟨e, he, by rw [if_neg hc]⟩, hk2⟩
        rw [hsame, hcov k]
        constructor
        · rintro ⟨x, hx, hk⟩
          exact ⟨x, List.mem_append_left _ hx, hk⟩
        · rintro ⟨x, hx, hk⟩
          rcases List.mem_append.mp hx with hx' | hx'
          · exact ⟨x, hx', hk⟩
          · rw [List.mem_singleton] at hx'
            subst hx'
            exact (hcov k).mp (by rw [← hk]; exact hany)
      · rename_i hany
        rw [List.any_append]
        constructor
        · intro h
          rw [Bool.or_eq_true] at h
          rcases h with h | h
          · obtain ⟨x, hx, hk⟩ := (hcov k).mp h
            exact ⟨x, List.mem_append_left _ hx, hk⟩
          · have hk : norm_key_row r = k := by simpa using h
            exact ⟨r, List.mem_append_right _ (List.mem_singleton.mpr rfl), hk⟩
        · rintro ⟨x, hx, hk⟩
          rw [Bool.or_eq_true]
          rcases List.mem_append.mp hx with hx' | hx'
          · exact Or.inl ((hcov k).mpr ⟨x, hx', hk⟩)
          · rw [List.mem_singleton] at hx'
            subst hx'
            exact Or.inr (by simpa using hk)

theorem dedup_to_delete_mem (s : DBState) (active : List String) (p : String × String) :
    p ∈ (build_groups s.torrents).foldl
      (fun acc e =>
        let records := e.2
        if (records.map (fun r => r.downloader_id)).eraseDups.length < 2 then acc
        else
          let keep := choose_keep_downloader_id_for_dedup records active
          acc ++ records.filterMap
            (fun r => if r.downloader_id != keep then
              some (r.hash, r.downloader_id) else none))
      [] ↔
    ∃ r2 ∈ s.torrents,
      ¬(((dedup_group_of s r2).map (fun x => x.downloader_id)).eraseDups.length < 2) ∧
      r2.downloader_id ≠
        choose_keep_downloader_id_for_dedup (dedup_group_of s r2) active ∧
      p = (r2.hash, r2.downloader_id) := by
  obtain ⟨hsound0, hcov0⟩ := build_groups_aux s.torrents [] []
    (by intro e he; simp at he) (by intro k; simp)
  have hsound : ∀ e ∈ build_groups s.torrents,
      e.2 = s.torrents.filter (fun r => norm_key_row r == e.1) := by
    intro e he
    have := hsound0 e he
    rwa [List.nil_append] at this
  have hcov : ∀ k, ((build_groups s.torrents).any (fun e => e.1 == k) = true) ↔
      ∃ r ∈ s.torrents, norm_key_row r = k := by
    intro k
    have := hcov0 k
    rwa [List.nil_append] at this
  rw [dedup_fold_mem]
  constructor
  · rintro (h | ⟨e, he, hbig, hp⟩)
    · simp at h
    · rw [List.mem_filterMap] at hp
      obtain ⟨r2, hr2e, hf⟩ := hp
      rw [hsound e he] at hr2e
      have hr2m := List.mem_filter.mp hr2e
      have hkeq : e.1 = norm_key_row r2 := (beq_iff_eq.mp hr2m.2).symm
      have hgrp : e.2 = dedup_group_of s r2 := by
        rw [hsound e he, hkeq]
        rfl
      by_cases hcnd : (r2.downloader_id !=
          choose_keep_downloader_id_for_dedup e.2 active) = true
      · rw [if_pos hcnd] at hf
        rw [hgrp] at hbig hcnd
        exact ⟨r2, hr2m.1, hbig, bne_iff_ne.mp hcnd, (Option.some.inj hf).symm⟩
      · rw [if_neg hcnd] at hf
        simp at hf
  · rintro ⟨r2, hr2, hbig, hne, hp⟩
    right
    have hany := (hcov (norm_key_row r2)).mpr ⟨r2, hr2, rfl⟩
    rw [List.any_eq_true] at hany
    obtain ⟨e, he, hbeq⟩ := hany
    have hkeq : e.1 = norm_key_row r2 := beq_iff_eq.mp hbeq
    have hgrp : e.2 = dedup_group_of s r2 := by
      rw [hsound e he, hkeq]
      rfl
    refine ⟨e, he, ?_, ?_⟩
    · rw [hgrp]
      exact hbig
    · rw [hgrp, List.mem_filterMap]
      refine ⟨r2, ?_, ?_⟩
      · exact List.mem_filter.mpr ⟨hr2, by simp⟩
      · rw [if_pos (bne_iff_ne.mpr hne), hp]

/-- C7 is false as stated (counterexample): in a duplicate group with two
rows under client `X` and one under client `Y`, the pass keeps client `X`
and deletes only `Y`'s row — two rows of the group are kept, not exactly
one. -/
theorem claim_C7_counterexample :
    ((deduplicate_based_on_active exC7_state []).torrents.filter
        (fun r => norm_key_row r == norm_key_row exC7_a1)).length = 2
    ∧ ((deduplicate_based_on_active exC7_state []).torrents.any
        (fun r => r.hash == "h3")) = false
    ∧ ((exC7_state.torrents.filter
        (fun r => norm_key_row r == norm_key_row exC7_a1)).map
          (fun r => r.downloader_id)).eraseDups.length ≥ 2 := by
  exact ⟨by decide, by decide, by decide⟩

/-- C7 amended (proved).  In the whole-store dedup pass, for every group
(normalized 5-attribute key) spanning at least two distinct clients, exactly
one *client's* rows are kept and every other client's rows of the group are
deleted from both the torrent table and the upload-stat table; the kept
client is the one owning the preferred record — active-hash records first,
then the greatest `(last_seen, downloader_id, hash)` key.  Groups within a
single client are left untouched. -/
theorem claim_C7_amended_keep_one_client (s : DBState) (active : List String)
    (hnd : keys_nodup s.torrents) :
    (∀ r ∈ s.torrents,
      (r ∈ (deduplicate_based_on_active s active).torrents ↔
        ((dedup_group_of s r).map (fun x => x.downloader_id)).eraseDups.length < 2
        ∨ r.downloader_id =
            choose_keep_downloader_id_for_dedup (dedup_group_of s r) active))
    ∧ (∀ st ∈ s.upload_stats,
      (st ∈ (deduplicate_based_on_active s active).upload_stats ↔
        ∀ r ∈ s.torrents, r.hash = st.hash → r.downloader_id = st.downloader_id →
          (((dedup_group_of s r).map (fun x => x.downloader_id)).eraseDups.length < 2
           ∨ r.downloader_id =
               choose_keep_downloader_id_for_dedup (dedup_group_of s r) active))) := by
  have hPmem := dedup_to_delete_mem s active
  set td := (build_groups s.torrents).foldl
      (fun acc e =>
        let records := e.2
        if (records.map (fun r => r.downloader_id)).eraseDups.length < 2 then acc
        else
          let keep := choose_keep_downloader_id_for_dedup records active
          acc ++ records.filterMap
            (fun r => if r.downloader_id != keep then
              some (r.hash, r.downloader_id) else none))
      [] with htd
  have hdedup : deduplicate_based_on_active s active =
      if td.isEmpty then s else
      { torrents := s.torrents.filter
          (fun r => !(td.any (fun p => p.1 == r.hash && p.2 == r.downloader_id)))
        upload_stats := s.upload_stats.filter
          (fun st => !(td.any (fun p => p.1 == st.hash && p.2 == st.downloader_id))) } := by
    rw [htd]
    rfl
  by_cases hemp : td.isEmpty = true
  · rw [List.isEmpty_iff] at hemp
    constructor
    · intro r hr
      rw [hdedup]
      rw [hemp]
      simp only [List.isEmpty_nil, if_true]
      constructor
      · intro _
        by_contra hcon
        rw [not_or] at hcon
        have hpair : (r.hash, r.downloader_id) ∈ td :=
          (hPmem _).mpr ⟨r, hr, hcon.1, hcon.2, rfl⟩
        rw [hemp] at hpair
        simp at hpair
      · intro _
        exact hr
    · intro st hst
      rw [hdedup, hemp]
      simp only [List.isEmpty_nil, if_true]
      constructor
      · intro _ r hr hh hd
        by_contra hcon
        rw [not_or] at hcon
        have hpair : (r.hash, r.downloader_id) ∈ td :=
          (hPmem _).mpr ⟨r, hr, hcon.1, hcon.2, rfl⟩
        rw [hemp] at hpair
        simp at hpair
      · intro _
        exact hst
  · constructor
    · intro r hr
      rw [hdedup, if_neg hemp, List.mem_filter]
      constructor
      · rintro ⟨_, hcond⟩
        rw [Bool.not_eq_true', List.any_eq_false] at hcond
        by_contra hcon
        rw [not_or] at hcon
        have hpair : (r.hash, r.downloader_id) ∈ td :=
          (hPmem _).mpr ⟨r, hr, hcon.1, hcon.2, rfl⟩
        have := hcond _ hpair
        simp at this
      · intro hkeep
        refine ⟨hr, ?_⟩
        rw [Bool.not_eq_true', List.any_eq_false]
        intro p hp
        obtain ⟨r2, hr2, hbig2, hne2, hpe⟩ := (hPmem p).mp hp
        subst hpe
        simp only [Bool.and_eq_true, beq_iff_eq, not_and]
        intro hh hd
        have hreq : r2 = r := keys_nodup_eq_of_same_key hnd hr2 hr hh hd
        rw [hreq] at hbig2 hne2
        rcases hkeep with hk | hk
        · exact hbig2 hk
        · exact hne2 hk
    · intro st hst
      rw [hdedup, if_neg hemp, List.mem_filter]
      constructor
      · rintro ⟨_, hcond⟩
        intro r hr hh hd
        rw [Bool.not_eq_true', List.any_eq_false] at hcond
        by_contra hcon
        rw [not_or] at hcon
        have hpair : (r.hash, r.downloader_id) ∈ td :=
          (hPmem _).mpr ⟨r, hr, hcon.1, hcon.2, rfl⟩
        have := hcond _ hpair
        simp [hh, hd] at this
      · intro hall
        refine ⟨hst, ?_⟩
        rw [Bool.not_eq_true', List.any_eq_false]
        intro p hp
        obtain ⟨r2, hr2, hbig2, hne2, hpe⟩ := (hPmem p).mp hp
        subst hpe
        simp only [Bool.and_eq_true, beq_iff_eq, not_and]
        intro hh hd
        rcases hall r2 hr2 hh hd with hk | hk
        · exact hbig2 hk
        · exact hne2 hk

/-- Witness for the amended C7 at a concrete two-client duplicate group: the
preferred client's row is kept and the other client's row is deleted. -/
theorem claim_C7_amended_keep_one_client_witness :
    (exC7w_a ∈ (deduplicate_based_on_active exC7w_state []).torrents ↔
      ((dedup_group_of exC7w_state exC7w_a).map
        (fun x => x.downloader_id)).eraseDups.length < 2
      ∨ exC7w_a.downloader_id =
          choose_keep_downloader_id_for_dedup (dedup_group_of exC7w_state exC7w_a) [])
    ∧ ((⟨"h2", "Y", 4⟩ : UploadStat) ∈
        (deduplicate_based_on_active exC7w_state []).upload_stats ↔
      ∀ r ∈ exC7w_state.torrents, r.hash = "h2" → r.downloader_id = "Y" →
        (((dedup_group_of exC7w_state r).map
          (fun x => x.downloader_id)).eraseDups.length < 2
         ∨ r.downloader_id =
             choose_keep_downloader_id_for_dedup (dedup_group_of exC7w_state r) [])) := by
  constructor
  · exact (claim_C7_amended_keep_one_client exC7w_state []
      (by unfold keys_nodup exC7w_state; simp; decide)).1 exC7w_a (by simp [exC7w_state])
  · exact (claim_C7_amended_keep_one_client exC7w_state []
      (by unfold keys_nodup exC7w_state; simp; decide)).2 ⟨"h2", "Y", 4⟩
      (by simp [exC7w_state])

/-- C8 is false as stated (counterexample): `exC8_r1` and `exC8_r2` share
only `(name, size)`, not the full group key (their save paths differ), so
under the claim's group-key grouping `exC8_r2`'s group has no row inside the
active/enabled sets and must be left unchanged — but the rebuild aggregates
by `(name, size)` alone, so it deletes `exC8_r2` and its upload-stat row
while reinserting only `exC8_r1`. -/
theorem claim_C8_counterexample :
    (startup_rebuild_aggregated_groups_once exC8_state ["h1"] ["X"]).torrents = [exC8_r1]
    ∧ (startup_rebuild_aggregated_groups_once exC8_state ["h1"] ["X"]).upload_stats = []
    ∧ ¬(norm_key_row exC8_r2 = norm_key_row exC8_r1)
    ∧ ((exC8_state.torrents.filter
        (fun r => norm_key_row r == norm_key_row exC8_r2)).any
          (fun r => ["h1"].contains r.hash && ["X"].contains r.downloader_id)) = false := by
  exact ⟨by decide, by decide, by decide, by decide⟩

/-- C8 amended (proved).  The one-shot startup rebuild aggregates by
`(name, size)` only: when there are enabled downloaders and active hashes, a
stored row survives the rebuild exactly when its `(name, size)` group is not
rebuilt (the group has no row with an active hash, or no stale row) or the
row itself is both active-hash and enabled-client; every row of a rebuilt
group that is not both is deleted; an upload-stat row survives exactly when
its `(hash, downloader_id)` belongs to no rebuilt-group row, or belongs to a
kept (active and enabled) row, whose stats are carried over.  No new rows
are created. -/
theorem claim_C8_amended_rebuild (s : DBState) (active enabled : List String)
    (henb : enabled.isEmpty = false) (hnd : keys_nodup s.torrents) :
    (∀ r ∈ s.torrents,
      (r ∈ (startup_rebuild_aggregated_groups_once s active enabled).torrents ↔
        (rebuild_group s active enabled (ns_key r) = false ∨
         rebuild_keep_row active enabled r = true)))
    ∧ (∀ r, r ∈ (startup_rebuild_aggregated_groups_once s active enabled).torrents →
        r ∈ s.torrents)
    ∧ (∀ st ∈ s.upload_stats,
      (st ∈ (startup_rebuild_aggregated_groups_once s active enabled).upload_stats ↔
        ((∀ r ∈ s.torrents, r.hash = st.hash → r.downloader_id = st.downloader_id →
            rebuild_group s active enabled (ns_key r) = false)
         ∨ (∃ r ∈ s.torrents, r.hash = st.hash ∧ r.downloader_id = st.downloader_id ∧
              rebuild_group s active enabled (ns_key r) = true ∧
              rebuild_keep_row active enabled r = true)))) := by
  by_cases hactive : active.isEmpty = true
  · have hres : startup_rebuild_aggregated_groups_once s active enabled = s := by
      simp only [startup_rebuild_aggregated_groups_once, henb, hactive]
      simp
    have hreb : ∀ k, rebuild_group s active enabled k = false := by
      intro k
      rw [List.isEmpty_iff] at hactive
      unfold rebuild_group rebuild_group_active
      rw [hactive]
      simp
    rw [hres]
    refine ⟨?_, ?_, ?_⟩
    · intro r hr
      exact ⟨fun _ => Or.inl (hreb (ns_key r)), fun _ => hr⟩
    · intro r hr
      exact hr
    · intro st hst
      exact ⟨fun _ => Or.inl (fun r _ _ _ => hreb (ns_key r)), fun _ => hst⟩
  · by_cases hstale :
      (s.torrents.any (fun r => rebuild_group s active enabled (ns_key r))) = true
    · have hres : startup_rebuild_aggregated_groups_once s active enabled =
          { torrents := s.torrents.filter
              (fun r => !(((s.torrents.filter
                (fun r2 => rebuild_group s active enabled (ns_key r2))).map
                  (fun r2 => (r2.hash, r2.downloader_id))).any
                (fun p => p.1 == r.hash && p.2 == r.downloader_id)))
              ++ s.torrents.filter
                (fun r => rebuild_group s active enabled (ns_key r)
                  && rebuild_keep_row active enabled r)
            upload_stats := s.upload_stats.filter
              (fun st => !(((s.torrents.filter
                (fun r2 => rebuild_group s active enabled (ns_key r2))).map
                  (fun r2 => (r2.hash, r2.downloader_id))).any
                (fun p => p.1 == st.hash && p.2 == st.downloader_id)))
              ++ s.upload_stats.filter
                (fun st => ((s.torrents.filter
                  (fun r => rebuild_group s active enabled (ns_key r)
                    && rebuild_keep_row active enabled r)).map
                    (fun r => (r.hash, r.downloader_id))).any
                  (fun p => p.1 == st.hash && p.2 == st.downloader_id)) } := by
        simp only [startup_rebuild_aggregated_groups_once, henb, hactive, hstale]
        simp
      have hdelmem : ∀ (h d : String),
          ((((s.torrents.filter
            (fun r2 => rebuild_group s active enabled (ns_key r2))).map
              (fun r2 => (r2.hash, r2.downloader_id))).any
            (fun p => p.1 == h && p.2 == d)) = true) ↔
          ∃ r2 ∈ s.torrents, rebuild_group s active enabled (ns_key r2) = true ∧
            r2.hash = h ∧ r2.downloader_id = d := by
        intro h d
        rw [List.any_eq_true]
        constructor
        · rintro ⟨p, hp, hmatch⟩
          rw [List.mem_map] at hp
          obtain ⟨r2, hr2, hpe⟩ := hp
          have hr2m := List.mem_filter.mp hr2
          subst hpe
          simp only [Bool.and_eq_true, beq_iff_eq] at hmatch
          exact ⟨r2, hr2m.1, hr2m.2, hmatch.1, hmatch.2⟩
        · rintro ⟨r2, hr2, hreb2, hh, hd⟩
          refine ⟨(r2.hash, r2.downloader_id), ?_, ?_⟩
          · rw [List.mem_map]
            exact ⟨r2, List.mem_filter.mpr ⟨hr2, hreb2⟩, rfl⟩
          · simp [hh, hd]
      have hkeepmem : ∀ (h d : String),
          ((((s.torrents.filter
            (fun r => rebuild_group s active enabled (ns_key r)
              && rebuild_keep_row active enabled r)).map
              (fun r => (r.hash, r.downloader_id))).any
            (fun p => p.1 == h && p.2 == d)) = true) ↔
          ∃ r2 ∈ s.torrents, rebuild_group s active enabled (ns_key r2) = true ∧
            rebuild_keep_row active enabled r2 = true ∧
            r2.hash = h ∧ r2.downloader_id = d := by
        intro h d
        rw [List.any_eq_true]
        constructor
        · rintro ⟨p, hp, hmatch⟩
          rw [List.mem_map] at hp
          obtain ⟨r2, hr2, hpe⟩ := hp
          have hr2m := List.mem_filter.mp hr2
          have hr2c := hr2m.2
          rw [Bool.and_eq_true] at hr2c
          subst hpe
          simp only [Bool.and_eq_true, beq_iff_eq] at hmatch
          exact ⟨r2, hr2m.1, hr2c.1, hr2c.2, hmatch.1, hmatch.2⟩
        · rintro ⟨r2, hr2, hreb2, hkeep2, hh, hd⟩
          refine ⟨(r2.hash, r2.downloader_id), ?_, ?_⟩
          · rw [List.mem_map]
            exact ⟨r2, List.mem_filter.mpr ⟨hr2, by rw [Bool.and_eq_true]; exact ⟨hreb2, hkeep2⟩⟩, rfl⟩
          · simp [hh, hd]
      rw [hres]
      refine ⟨?_, ?_, ?_⟩
      · intro r hr
        simp only [List.mem_append, List.mem_filter]
        constructor
        · rintro (⟨_, hcond⟩ | ⟨_, hcond⟩)
          · rw [Bool.not_eq_true'] at hcond
            left
            by_contra hcon
            rw [Bool.not_eq_false] at hcon
            have : ((((s.torrents.filter
                (fun r2 => rebuild_group s active enabled (ns_key r2))).map
                  (fun r2 => (r2.hash, r2.downloader_id))).any
                (fun p => p.1 == r.hash && p.2 == r.downloader_id)) = true) :=
              (hdelmem r.hash r.downloader_id).mpr ⟨r, hr, hcon, rfl, rfl⟩
            rw [hcond] at this
            exact Bool.false_ne_true this
          · rw [Bool.and_eq_true] at hcond
            exact Or.inr hcond.2
        · rintro (hcase | hcase)
          · left
            refine ⟨hr, ?_⟩
            rw [Bool.not_eq_true', Bool.eq_false_iff]
            intro hany
            obtain ⟨r2, hr2, hreb2, hh, hd⟩ := (hdelmem r.hash r.downloader_id).mp hany
            have : r2 = r := keys_nodup_eq_of_same_key hnd hr2 hr hh hd
            rw [this] at hreb2
            rw [hcase] at hreb2
            exact Bool.false_ne_true hreb2
          · by_cases hrin : rebuild_group s active enabled (ns_key r) = true
            · right
              refine ⟨hr, ?_⟩
              rw [Bool.and_eq_true]
              exact ⟨hrin, hcase⟩
            · left
              refine ⟨hr, ?_⟩
              rw [Bool.not_eq_true', Bool.eq_false_iff]
              intro hany
              obtain ⟨r2, hr2, hreb2, hh, hd⟩ := (hdelmem r.hash r.downloader_id).mp hany
              have : r2 = r := keys_nodup_eq_of_same_key hnd hr2 hr hh hd
              rw [this] at hreb2
              exact hrin hreb2
      · intro r hr
        simp only [List.mem_append, List.mem_filter] at hr
        rcases hr with ⟨hr, _⟩ | ⟨hr, _⟩ <;> exact hr
      · intro st hst
        simp only [List.mem_append, List.mem_filter]
        constructor
        · rintro (⟨_, hcond⟩ | ⟨_, hcond⟩)
          · rw [Bool.not_eq_true'] at hcond
            left
            intro r hr hh hd
            rw [Bool.eq_false_iff]
            intro hrin
            have : ((((s.torrents.filter
                (fun r2 => rebuild_group s active enabled (ns_key r2))).map
                  (fun r2 => (r2.hash, r2.downloader_id))).any
                (fun p => p.1 == st.hash && p.2 == st.downloader_id)) = true) :=
              (hdelmem st.hash st.downloader_id).mpr ⟨r, hr, hrin, hh, hd⟩
            rw [hcond] at this
            exact Bool.false_ne_true this
          · obtain ⟨r2, hr2, hreb2, hkeep2, hh, hd⟩ :=
              (hkeepmem st.hash st.downloader_id).mp hcond
            exact Or.inr ⟨r2, hr2, hh, hd, hreb2, hkeep2⟩
        · rintro (hcase | hcase)
          · left
            refine ⟨hst, ?_⟩
            rw [Bool.not_eq_true', Bool.eq_false_iff]
            intro hany
            obtain ⟨r2, hr2, hreb2, hh, hd⟩ := (hdelmem st.hash st.downloader_id).mp hany
            have := hcase r2 hr2 hh hd
            rw [this] at hreb2
            exact Bool.false_ne_true hreb2
          · right
            obtain ⟨r2, hr2, hh, hd, hreb2, hkeep2⟩ := hcase
            exact ⟨hst, (hkeepmem st.hash st.downloader_id).mpr
              ⟨r2, hr2, hreb2, hkeep2, hh, hd⟩⟩
    · have hstaleF : (s.torrents.any
          (fun r => rebuild_group s active enabled (ns_key r))) = false :=
        Bool.eq_false_iff.mpr hstale
      have hres : startup_rebuild_aggregated_groups_once s active enabled = s := by
        simp only [startup_rebuild_aggregated_groups_once, henb, hactive, hstaleF]
        simp
      have hreb : ∀ r ∈ s.torrents, rebuild_group s active enabled (ns_key r) = false := by
        intro r hr
        rw [Bool.eq_false_iff]
        intro hcon
        exact hstale (List.any_eq_true.mpr ⟨r, hr, hcon⟩)
      rw [hres]
      refine ⟨?_, ?_, ?_⟩
      · intro r hr
        exact ⟨fun _ => Or.inl (hreb r hr), fun _ => hr⟩
      · intro r hr
        exact hr
      · intro st hst
        exact ⟨fun _ => Or.inl (fun r hr _ _ => hreb r hr), fun _ => hst⟩

/-- Witness for the amended C8: the kept row of the rebuilt `(name, size)`
group survives, and the stale row's upload-stat row does not. -/
theorem claim_C8_amended_rebuild_witness :
    (exC8_r1 ∈ (startup_rebuild_aggregated_groups_once exC8_state ["h1"] ["X"]).torrents ↔
      (rebuild_group exC8_state ["h1"] ["X"] (ns_key exC8_r1) = false ∨
       rebuild_keep_row ["h1"] ["X"] exC8_r1 = true))
    ∧ ((⟨"h2", "X", 3⟩ : UploadStat) ∈
        (startup_rebuild_aggregated_groups_once exC8_state ["h1"] ["X"]).upload_stats ↔
      ((∀ r ∈ exC8_state.torrents, r.hash = "h2" → r.downloader_id = "X" →
          rebuild_group exC8_state ["h1"] ["X"] (ns_key r) = false)
       ∨ (∃ r ∈ exC8_state.torrents, r.hash = "h2" ∧ r.downloader_id = "X" ∧
            rebuild_group exC8_state ["h1"] ["X"] (ns_key r) = true ∧
            rebuild_keep_row ["h1"] ["X"] r = true))) := by
  constructor
  · exact (claim_C8_amended_rebuild exC8_state ["h1"] ["X"] (by decide)
      (by unfold keys_nodup exC8_state; simp; decide)).1 exC8_r1 (by simp [exC8_state])
  · exact (claim_C8_amended_rebuild exC8_state ["h1"] ["X"] (by decide)
      (by unfold keys_nodup exC8_state; simp; decide)).2.2 ⟨"h2", "X", 3⟩
      (by simp [exC8_state])

end PTNexus
